import Mathlib

/-!
# Verification development for the experiment runner (`runner.go`, `options.go`)

The runner's sampling decision is computed in Go `float32`; the first part of
the file is an executable model of the IEEE-754 binary32 operations that
`shouldRun` uses (division, multiplication, comparison), each rounded to
nearest with ties to even.
-/

namespace experiment

/-! ## float32 -/

/-- Go `float32` values. A finite value is `(-1)^neg * m * 2^e`. -/
inductive F32 where
  | nan : F32
  | inf (neg : Bool) : F32
  | fin (neg : Bool) (m : Nat) (e : Int) : F32
  deriving DecidableEq, Repr

namespace F32

/-- Round-to-nearest, ties-to-even, of the quotient `num / den` (`den > 0`). -/
def rne (num den : Nat) : Nat :=
  let f := num / den
  let r := num % den
  if 2 * r < den then f
  else if den < 2 * r then f + 1
  else if f % 2 = 0 then f else f + 1

/-- Halving count: `log2Fuel fuel n` is the floor of the binary logarithm of
`n` whenever `fuel` is at least that logarithm. -/
def log2Fuel : Nat → Nat → Nat
  | 0, _ => 0
  | fuel + 1, n => if 2 ≤ n then log2Fuel fuel (n / 2) + 1 else 0

/-- The floor of the binary logarithm of `n > 0`. -/
def log2 (n : Nat) : Nat := log2Fuel n n

/-- The floor of the binary logarithm of `n / d * 2^x`, for `n, d > 0`. -/
def floorLog2 (n d : Nat) (x : Int) : Int :=
  let s : Int := (log2 d : Int) - (log2 n : Int)
  let k0 : Int := x - s
  let ge : Bool := if 0 ≤ s then decide (d ≤ n * 2 ^ s.toNat) else decide (d * 2 ^ (-s).toNat ≤ n)
  if ge then k0 else k0 - 1

/-- Rounding of the exact value `(-1)^neg * (n / d) * 2^x` (`d > 0`) to binary32:
24 significant bits, least exponent `-149` (subnormals), overflow to infinity. -/
def round (neg : Bool) (n d : Nat) (x : Int) : F32 :=
  if n = 0 then fin neg 0 0
  else
    let e : Int := max (floorLog2 n d x - 23) (-149)
    let m : Nat :=
      if 0 ≤ x - e then rne (n * 2 ^ (x - e).toNat) d
      else rne n (d * 2 ^ (e - x).toNat)
    if 104 < e ∨ (e = 104 ∧ 2 ^ 24 ≤ m) then inf neg else fin neg m e

/-- Conversion of a natural number (an integer constant such as `100`). -/
def ofNat (n : Nat) : F32 := round false n 1 0

/-- Go `x / y` on `float32`. -/
def div : F32 → F32 → F32
  | nan, _ => nan
  | _, nan => nan
  | inf _, inf _ => nan
  | inf s, fin t _ _ => inf (xor s t)
  | fin s _ _, inf t => fin (xor s t) 0 0
  | fin s m e, fin t n f =>
    if n = 0 then (if m = 0 then nan else inf (xor s t))
    else round (xor s t) m n (e - f)

/-- Go `x * y` on `float32`. -/
def mul : F32 → F32 → F32
  | nan, _ => nan
  | _, nan => nan
  | inf s, inf t => inf (xor s t)
  | inf s, fin t n _ => if n = 0 then nan else inf (xor s t)
  | fin s m _, inf t => if m = 0 then nan else inf (xor s t)
  | fin s m e, fin t n f => round (xor s t) (m * n) 1 (e + f)

/-- The signed integer `(-1)^neg * m * 2^(e - b)` for `b ≤ e`: a finite value
on the common scale `2^b`. -/
def scaled (neg : Bool) (m : Nat) (e b : Int) : Int :=
  let v : Int := (m * 2 ^ (e - b).toNat : Nat)
  if neg then -v else v

/-- Go `x <= y` on `float32` (false when either side is NaN). -/
def le : F32 → F32 → Bool
  | nan, _ => false
  | _, nan => false
  | inf s, inf t => s || !t
  | inf s, fin _ _ _ => s
  | fin _ _ _, inf t => !t
  | fin s m e, fin t n f => decide (scaled s m e (min e f) ≤ scaled t n f (min e f))

/-- Go `x == y` on `float32` (false when either side is NaN; `-0 == +0`). -/
def eq : F32 → F32 → Bool
  | nan, _ => false
  | _, nan => false
  | inf s, inf t => s == t
  | inf _, fin _ _ _ => false
  | fin _ _ _, inf _ => false
  | fin s m e, fin t n f => decide (scaled s m e (min e f) = scaled t n f (min e f))

/-- Go `x < y` on `float32`. -/
def lt (x y : F32) : Bool := le x y && !eq x y

/-- The rational number a finite value denotes (`none` for NaN and infinities). -/
def toRat : F32 → Option ℚ
  | nan => none
  | inf _ => none
  | fin s m e => some ((if s then -1 else 1) * (m : ℚ) * (2 : ℚ) ^ e)

end F32

/-! ## Data model -/

/-- Modelled from the spec: the reserved name that denotes the control
behaviour. The constant `controlKey` is declared outside `runner.go`; only its
being one fixed name matters below. -/
def controlKey : String := "control"

/-- How one call of a behaviour's function ends: it returns a value and an
error (either may be nil), or it panics with a (non-nil) value. A function that
never returns is outside the model: `Run` waits for every selected behaviour. -/
inductive Outcome (Val Err Pan : Type) where
  | returns (value : Option Val) (err : Option Err) : Outcome Val Err Pan
  | panics (p : Pan) : Outcome Val Err Pan
  deriving DecidableEq

/-- The `behaviour` record as `runner.go` uses it: `beh.name` and `b.fnc(ctx)`. -/
structure behaviour (Ctx Val Err Pan : Type) where
  name : String
  fnc : Ctx → Outcome Val Err Pan

/-- The `Observation` record as `runner.go` fills it. `nil` fields are `none`.
The wall-clock `Duration` field is left out. -/
structure Observation (Val Err Pan : Type) where
  Name : String
  Value : Option Val
  Error : Option Err
  Panic : Option Pan
  deriving DecidableEq

/-- The map `Observations`, from behaviour name to Observation. -/
abbrev Observations (Val Err Pan : Type) := String → Option (Observation Val Err Pan)

/-- The statement `obs[ob.Name] = *ob`. -/
def Observations.put {Val Err Pan : Type} (obs : Observations Val Err Pan)
    (ob : Observation Val Err Pan) : Observations Val Err Pan :=
  fun n => if n = ob.Name then some ob else obs n

/-- Modelled from the spec: the Experiment State, a pair of counters. The type
`Experiment` and its methods `run` and `hit` are declared outside `runner.go`. -/
structure Experiment where
  hits : Nat
  runs : Nat
  deriving DecidableEq, Repr

/-- Modelled from the spec: `recordRun()` increments `runs` by 1 (the method
`Experiment.run`, declared outside `runner.go`). -/
def Experiment.run (e : Experiment) : Experiment := { e with runs := e.runs + 1 }

/-- Modelled from the spec: `recordHit()` increments `hits` by 1 (the method
`Experiment.hit`, declared outside `runner.go`). -/
def Experiment.hit (e : Experiment) : Experiment := { e with hits := e.hits + 1 }

/-- The fields of `Config` that `runner.go` reads. -/
structure Config (Ctx : Type) where
  BeforeFilters : List (Ctx → Ctx)
  Percentage : F32

/-- The struct `experimentRunner`. The pointer field `experiment` is carried by
value, and `Run` returns the runner it leaves behind. The map `behaviours` is a
list of key/behaviour pairs. -/
structure experimentRunner (Ctx Val Err Pan : Type) where
  experiment : Experiment
  behaviours : List (String × behaviour Ctx Val Err Pan)
  config : Config Ctx
  testMode : Bool
  disabled : Bool
  force : Bool
  hasRun : Bool
  hits : F32
  runs : F32

/-- A panic that leaves a goroutine unrecovered: one raised by a behaviour's
function, or the nil dereference of `beh.name` on a nil behaviour. -/
inductive Fault (Pan : Type) where
  | raised (p : Pan) : Fault Pan
  | nilDeref : Fault Pan
  deriving DecidableEq

/-- What one `observe` goroutine does: the Observation it puts on the channel
(if it gets that far) and the panic that leaves it unrecovered (if any). -/
structure Delivery (Val Err Pan : Type) where
  sent : Option (Observation Val Err Pan)
  escaped : Option (Fault Pan)
  deriving DecidableEq

/-- The outcome of `Run`: the runner as the call leaves it, the Observations
assembled from the channel, and the panics that left a goroutine unrecovered.
`Run` returns normally exactly when `escaped` is empty; an unrecovered panic
in a goroutine ends the process. -/
structure RunResult (Ctx Val Err Pan : Type) where
  runner : experimentRunner Ctx Val Err Pan
  obs : Observations Val Err Pan
  escaped : List (Fault Pan)

section Operations

variable {Ctx Val Err Pan : Type}

/-! ## Operations of `runner.go` -/

/-- Method `Disable(d)`. -/
def experimentRunner.Disable (r : experimentRunner Ctx Val Err Pan) (d : Bool) :
    experimentRunner Ctx Val Err Pan := { r with disabled := d }

/-- Method `Force(f)`. -/
def experimentRunner.Force (r : experimentRunner Ctx Val Err Pan) (f : Bool) :
    experimentRunner Ctx Val Err Pan := { r with force := f }

/-- Method `HasRun()`. -/
def experimentRunner.HasRun (r : experimentRunner Ctx Val Err Pan) : Bool := r.hasRun

/-- Method `shouldRun()`: the sampling decision, on the runner's own `hits`, `runs`,
`testMode` and `config.Percentage`, in `float32` arithmetic. -/
def experimentRunner.shouldRun (r : experimentRunner Ctx Val Err Pan) : Bool :=
  if r.testMode then true
  else if F32.eq r.runs (F32.ofNat 0) then true
  else if F32.le (F32.mul (F32.div r.hits r.runs) (F32.ofNat 100)) r.config.Percentage then true
  else false

/-- Function `runObservation`: stores what `b.fnc(ctx)` returns in the Observation; when
the function panics the Observation is left as it was and the panic goes on. -/
def runObservation (ctx : Ctx) (b : behaviour Ctx Val Err Pan)
    (obs : Observation Val Err Pan) : Observation Val Err Pan × Option Pan :=
  match b.fnc ctx with
  | .returns v e => ({ obs with Value := v, Error := e }, none)
  | .panics p => (obs, some p)

/-- Method `observe`: runs the behaviour, then the deferred function recovers a panic
into `obs.Panic` unless the Observation is the control's or `tm` is set, and
sends the Observation in every case. -/
def experimentRunner.observe (_r : experimentRunner Ctx Val Err Pan) (ctx : Ctx)
    (beh : Option (behaviour Ctx Val Err Pan)) (tm : Bool) : Delivery Val Err Pan :=
  match beh with
  | none => { sent := none, escaped := some Fault.nilDeref }
  | some b =>
    let obs0 : Observation Val Err Pan :=
      { Name := b.name, Value := none, Error := none, Panic := none }
    let ran := runObservation ctx b obs0
    if !(ran.1.Name == controlKey || tm) then
      match ran.2 with
      | some p => { sent := some { ran.1 with Panic := some p }, escaped := none }
      | none => { sent := some ran.1, escaped := none }
    else { sent := some ran.1, escaped := ran.2.map Fault.raised }

/-- One round of the fan-in loop of `Run`: an Observation received from the
channel is stored under its own name. -/
def Observations.receive (obs : Observations Val Err Pan) (d : Delivery Val Err Pan) :
    Observations Val Err Pan :=
  match d.sent with
  | some ob => obs.put ob
  | none => obs

/-- The fan-in loop of `Run`, starting from `Observations{}`; the list gives
the order of arrival, which does not matter when the names sent are distinct
(`collect_perm`). -/
def collect (ds : List (Delivery Val Err Pan)) : Observations Val Err Pan :=
  ds.foldl Observations.receive (fun _ => none)

/-- The context the behaviours receive: the caller's context (the background
context when it is nil) passed through the before-filters in order. -/
def experimentRunner.runContext (background : Ctx) (r : experimentRunner Ctx Val Err Pan)
    (ctx : Option Ctx) : Ctx :=
  r.config.BeforeFilters.foldl (fun c f => f c)
    (match ctx with
     | none => background
     | some c => c)

/-- The one-entry map `{controlKey: r.behaviours[controlKey]}`. -/
def experimentRunner.controlOnly (r : experimentRunner Ctx Val Err Pan) :
    List (String × Option (behaviour Ctx Val Err Pan)) :=
  [(controlKey, r.behaviours.lookup controlKey)]

/-- The whole map `r.behaviours`. -/
def experimentRunner.allBehaviours (r : experimentRunner Ctx Val Err Pan) :
    List (String × Option (behaviour Ctx Val Err Pan)) :=
  r.behaviours.map (fun kb => (kb.1, some kb.2))

/-- The mode selection of `Run`: the runner as the call leaves it and the map
of behaviours to run. -/
def experimentRunner.select (r : experimentRunner Ctx Val Err Pan) :
    experimentRunner Ctx Val Err Pan × List (String × Option (behaviour Ctx Val Err Pan)) :=
  if r.disabled then (r, r.controlOnly)
  else if r.force then (r, r.allBehaviours)
  else
    let r1 := { r with experiment := r.experiment.run }
    if r1.shouldRun then
      ({ r1 with experiment := r1.experiment.hit, hasRun := true }, r1.allBehaviours)
    else (r1, r1.controlOnly)

/-- The fan-out loop of `Run`: one `observe` goroutine for each entry of the
selected map. -/
def deliveries (r : experimentRunner Ctx Val Err Pan) (c : Ctx) (tm : Bool)
    (sel : List (String × Option (behaviour Ctx Val Err Pan))) : List (Delivery Val Err Pan) :=
  sel.map (fun kb => r.observe c kb.2 tm)

/-- Method `Run(ctx)`. Here `background` is `context.Background()`; `TestMode` is the
package-level identifier that `Run` hands to `observe` as `tm` (it is not
declared in `runner.go`). -/
def experimentRunner.Run (background : Ctx) (TestMode : Bool)
    (r : experimentRunner Ctx Val Err Pan) (ctx : Option Ctx) : RunResult Ctx Val Err Pan :=
  let c := r.runContext background ctx
  let sel := r.select
  let ds := deliveries sel.1 c TestMode sel.2
  { runner := sel.1, obs := collect ds, escaped := ds.filterMap (fun d => d.escaped) }

/-- The runner whose behaviour registered under the key `k` has its function
replaced by `g`: the same experiment run with another implementation of that
behaviour. -/
def experimentRunner.withFnc (r : experimentRunner Ctx Val Err Pan) (k : String)
    (g : Ctx → Outcome Val Err Pan) : experimentRunner Ctx Val Err Pan :=
  { r with behaviours :=
      r.behaviours.map (fun kb => if kb.1 = k then (kb.1, { kb.2 with fnc := g }) else kb) }

/-- The shape of the behaviour map: its keys are distinct (it is a Go map) and
every behaviour is registered under its own name. -/
def experimentRunner.WellKeyed (r : experimentRunner Ctx Val Err Pan) : Prop :=
  (r.behaviours.map Prod.fst).Nodup ∧ ∀ kb ∈ r.behaviours, kb.2.name = kb.1

end Operations

/-! ## The sampling rule in exact arithmetic -/

/-- The sampling rule as the spec words it, on counters `hits`, `runs` and a
percentage `p` that are plain numbers: true when `runs = 0`, and otherwise true
exactly when `hits / runs * 100 ≤ p` as a comparison of rational numbers. -/
def exactRateRule (hits runs p : Nat) : Bool :=
  if runs = 0 then true else decide ((hits : ℚ) / (runs : ℚ) * 100 ≤ (p : ℚ))

/-! ## Sample runners -/

/-- A control that returns its context plus 5 and no error. -/
def sampleControl : behaviour Nat Nat String String :=
  { name := controlKey, fnc := fun c => Outcome.returns (some (c + 5)) none }

/-- A control that panics. -/
def panickingControl : behaviour Nat Nat String String :=
  { name := controlKey, fnc := fun _ => Outcome.panics "control down" }

/-- A candidate that panics. -/
def panickingCandidate : behaviour Nat Nat String String :=
  { name := "candidate", fnc := fun _ => Outcome.panics "boom" }

/-- A candidate that returns the value 8 and an error. -/
def failingCandidate : behaviour Nat Nat String String :=
  { name := "other", fnc := fun _ => Outcome.returns (some 8) (some "mismatch") }

/-- A runner over `sampleControl` and two candidates, with the given flags,
runner counters and percentage; the experiment has recorded 1 hit in 2 runs,
and two before-filters are configured: add 1, then double. On the background
context 0 the behaviours receive the context 2. -/
def sampleRunner (testMode disabled force : Bool) (hits runs pct : Nat) :
    experimentRunner Nat Nat String String :=
  { experiment := { hits := 1, runs := 2 }
    behaviours := [(controlKey, sampleControl), ("candidate", panickingCandidate),
      ("other", failingCandidate)]
    config := { BeforeFilters := [fun c => c + 1, fun c => c * 2], Percentage := F32.ofNat pct }
    testMode := testMode
    disabled := disabled
    force := force
    hasRun := false
    hits := F32.ofNat hits
    runs := F32.ofNat runs }

/-- A runner over `panickingControl` and one candidate, with the given flags. -/
def faultyRunner (testMode disabled force : Bool) : experimentRunner Nat Nat String String :=
  { experiment := { hits := 0, runs := 0 }
    behaviours := [("other", failingCandidate), (controlKey, panickingControl)]
    config := { BeforeFilters := [fun c => c + 1, fun c => c * 2], Percentage := F32.ofNat 10 }
    testMode := testMode
    disabled := disabled
    force := force
    hasRun := false
    hits := F32.ofNat 0
    runs := F32.ofNat 0 }

/-- A runner over `sampleControl` and one candidate that returns an error, with
the given flags: every behaviour returns normally. -/
def steadyRunner (testMode disabled force : Bool) : experimentRunner Nat Nat String String :=
  { experiment := { hits := 0, runs := 0 }
    behaviours := [(controlKey, sampleControl), ("other", failingCandidate)]
    config := { BeforeFilters := [fun c => c + 1, fun c => c * 2], Percentage := F32.ofNat 10 }
    testMode := testMode
    disabled := disabled
    force := force
    hasRun := false
    hits := F32.ofNat 0
    runs := F32.ofNat 0 }

/-! ## The sampling loop -/

/-- Modelled from the spec: one sampled call of `Run` whose decision is taken on
the cumulative counters of the Experiment State. The runner that makes the call
is neither disabled nor forced nor in test mode, has the percentage `p`, and
reads as its own `hits` and `runs` the counters of the experiment with the run
recorded. How a runner comes by its `hits` and `runs` is not in `runner.go`. -/
def sampledCall (p : Nat) (e : Experiment) : Experiment :=
  (({ sampleRunner false false false e.hits e.run.runs p with experiment := e } :
    experimentRunner Nat Nat String String).Run 0 false none).runner.experiment

/-- The Experiment State after `n` sampled calls, starting from `hits = runs = 0`. -/
def sampledLoop (p : Nat) : Nat → Experiment
  | 0 => { hits := 0, runs := 0 }
  | n + 1 => sampledCall p (sampledLoop p n)

/-! ## Sequences of calls -/

/-- One call of `Run` in a sequence of calls on one Experiment State: the runner
the call is made through (its `experiment` pointer is the shared state), the
value of the package-level `TestMode` at the call, and the caller's context. -/
structure Invocation (Ctx Val Err Pan : Type) where
  runner : experimentRunner Ctx Val Err Pan
  TestMode : Bool
  ctx : Option Ctx

/-- The Experiment State that one call of `Run` leaves, made on the state `e`. -/
def Invocation.apply {Ctx Val Err Pan : Type} (background : Ctx) (e : Experiment)
    (c : Invocation Ctx Val Err Pan) : Experiment :=
  (({ c.runner with experiment := e } : experimentRunner Ctx Val Err Pan).Run
    background c.TestMode c.ctx).runner.experiment

/-- The Experiment State after a sequence of calls of `Run`, one after the other. -/
def runAll {Ctx Val Err Pan : Type} (background : Ctx)
    (calls : List (Invocation Ctx Val Err Pan)) (e : Experiment) : Experiment :=
  calls.foldl (Invocation.apply background) e

/-- A call of one of the methods of `Runner` that can change the runner. -/
inductive Call (Ctx : Type) where
  | Run (TestMode : Bool) (ctx : Option Ctx) : Call Ctx
  | Disable (d : Bool) : Call Ctx
  | Force (f : Bool) : Call Ctx

/-- The runner that one method call leaves. -/
def experimentRunner.perform {Ctx Val Err Pan : Type} (background : Ctx)
    (r : experimentRunner Ctx Val Err Pan) : Call Ctx → experimentRunner Ctx Val Err Pan
  | Call.Run tm ctx => (r.Run background tm ctx).runner
  | Call.Disable d => r.Disable d
  | Call.Force f => r.Force f

/-- The runner that a sequence of method calls leaves. -/
def experimentRunner.performAll {Ctx Val Err Pan : Type} (background : Ctx)
    (r : experimentRunner Ctx Val Err Pan) (calls : List (Call Ctx)) :
    experimentRunner Ctx Val Err Pan :=
  calls.foldl (experimentRunner.perform background) r

/-! ## Options (`options.go`) -/

/-- Go `float64` values. A finite value is `(-1)^neg * m * 2^e`. -/
inductive F64 where
  | nan : F64
  | inf (neg : Bool) : F64
  | fin (neg : Bool) (m : Nat) (e : Int) : F64
  deriving DecidableEq, Repr

/-- The conversion `float64(p)` of an integer: 53 significant bits, rounded to
nearest with ties to even (no integer of 64 bits overflows). -/
def F64.ofInt (p : Int) : F64 :=
  if p.natAbs = 0 then F64.fin false 0 0
  else
    let e : Int := (F32.log2 p.natAbs : Int) - 52
    let m : Nat :=
      if 0 ≤ e then F32.rne p.natAbs (2 ^ e.toNat) else p.natAbs * 2 ^ (-e).toNat
    F64.fin (decide (p < 0)) m e

/-- The rational number a finite value denotes (`none` for NaN and infinities). -/
def F64.toRat : F64 → Option ℚ
  | F64.nan => none
  | F64.inf _ => none
  | F64.fin s m e => some ((if s then -1 else 1) * (m : ℚ) * (2 : ℚ) ^ e)

/-- The type `ComparisonMethod`. -/
abbrev ComparisonMethod (Val Err Pan : Type) :=
  Observation Val Err Pan → Observation Val Err Pan → Bool

/-- The struct `options`; a nil `comparison` or `ctx` is `none`. -/
structure options (Ctx Val Err Pan : Type) where
  name : String
  enabled : Bool
  testMode : Bool
  percentage : F64
  comparison : Option (ComparisonMethod Val Err Pan)
  ctx : Option Ctx

/-- The type `Option` of `options.go`, `func(*options)`: a change of the
options. -/
abbrev OptionFn (Ctx Val Err Pan : Type) := options Ctx Val Err Pan → options Ctx Val Err Pan

section Options

variable {Ctx Val Err Pan : Type}

/-- Function `newOptions(ops...)`: the options are applied in order to the
defaults; `background` is `context.Background()`. -/
def newOptions (background : Ctx) (ops : List (OptionFn Ctx Val Err Pan)) :
    options Ctx Val Err Pan :=
  ops.foldl (fun opts o => o opts)
    { name := "", enabled := true, testMode := false, percentage := F64.ofInt 10,
      comparison := none, ctx := some background }

/-- Option `name(name)`. -/
def name (name : String) : OptionFn Ctx Val Err Pan :=
  fun opts => { opts with name := name }

/-- Option `Percentage(p)`. -/
def Percentage (p : Int) : OptionFn Ctx Val Err Pan :=
  fun opts => { opts with percentage := F64.ofInt p }

/-- Option `Enabled(b)`. -/
def Enabled (b : Bool) : OptionFn Ctx Val Err Pan :=
  fun opts => { opts with enabled := b }

/-- Option `Compare(m)`. -/
def Compare (m : Option (ComparisonMethod Val Err Pan)) : OptionFn Ctx Val Err Pan :=
  fun opts => { opts with comparison := m }

/-- Option `TestMode()` of `options.go`. -/
def TestMode : OptionFn Ctx Val Err Pan :=
  fun opts => { opts with testMode := true }

/-- Option `Context(ctx)`. -/
def Context (ctx : Option Ctx) : OptionFn Ctx Val Err Pan :=
  fun opts => { opts with ctx := ctx }

end Options

end experiment

namespace experiment

section Lemmas

variable {Ctx Val Err Pan : Type}

/-! ## float32: the rounding -/

/-- The rounded quotient is within half a unit of the exact quotient. -/
theorem F32.rne_nearest (n d : Nat) (hd : 0 < d) :
    2 * (F32.rne n d * d) ≤ 2 * n + d ∧ 2 * n ≤ 2 * (F32.rne n d * d) + d := by
  have hdm : d * (n / d) + n % d = n := Nat.div_add_mod n d
  have hlt : n % d < d := Nat.mod_lt n hd
  have hmul : (n / d + 1) * d = d * (n / d) + d := by ring
  have hmul0 : n / d * d = d * (n / d) := Nat.mul_comm _ _
  unfold F32.rne
  simp only
  split_ifs <;> constructor <;> omega

/-- Known binary32 values: `0.1`, `1/3`, `0.6`, the least subnormal, the
rounding of `2^24 + 1` to even, and overflow to infinity. -/
theorem F32.known_values :
    F32.div (F32.ofNat 1) (F32.ofNat 10) = F32.fin false 13421773 (-27) ∧
    F32.div (F32.ofNat 1) (F32.ofNat 3) = F32.fin false 11184811 (-25) ∧
    F32.div (F32.ofNat 3) (F32.ofNat 5) = F32.fin false 10066330 (-24) ∧
    F32.div (F32.fin false 1 (-126)) (F32.ofNat (2 ^ 23)) = F32.fin false 1 (-149) ∧
    F32.ofNat (2 ^ 24 + 1) = F32.fin false (2 ^ 23) 1 ∧
    F32.mul (F32.fin false 1 127) (F32.ofNat 2) = F32.inf false := by
  refine ⟨by decide, by decide, by decide, by decide, by decide, by decide⟩

/-! ## float32: error bounds of the rounding -/

namespace F32

theorem log2Fuel_spec : ∀ (fuel n : Nat), 0 < n → n ≤ fuel →
    2 ^ log2Fuel fuel n ≤ n ∧ n < 2 ^ (log2Fuel fuel n + 1)
  | 0, n, h0, hle => by omega
  | fuel + 1, n, h0, hle => by
    unfold log2Fuel
    split_ifs with h2
    · have ih := log2Fuel_spec fuel (n / 2) (by omega) (by omega)
      obtain ⟨ih1, ih2⟩ := ih
      have e1 : 2 ^ (log2Fuel fuel (n / 2) + 1) = 2 * 2 ^ log2Fuel fuel (n / 2) := by ring
      have e2 : 2 ^ (log2Fuel fuel (n / 2) + 1 + 1) = 2 * 2 ^ (log2Fuel fuel (n / 2) + 1) := by
        ring
      rw [e2]
      rw [e1] at ih2 ⊢
      constructor <;> omega
    · simp only [pow_zero, zero_add, pow_one]
      omega

theorem log2_spec (n : Nat) (hn : 0 < n) : 2 ^ log2 n ≤ n ∧ n < 2 ^ (log2 n + 1) :=
  log2Fuel_spec n n hn (Nat.le_refl n)

/-- The logarithm bounds, as rational numbers with integer exponents. -/
theorem log2_spec_rat (n : Nat) (hn : 0 < n) :
    (2 : ℚ) ^ (log2 n : Int) ≤ (n : ℚ) ∧ (n : ℚ) < (2 : ℚ) ^ ((log2 n : Int) + 1) := by
  obtain ⟨h1, h2⟩ := log2_spec n hn
  constructor
  · rw [zpow_natCast]; exact_mod_cast h1
  · have : ((log2 n : Int) + 1) = ((log2 n + 1 : Nat) : Int) := by push_cast; rfl
    rw [this, zpow_natCast]; exact_mod_cast h2

theorem floorLog2_check (n d : Nat) (s : Int) (hd : 0 < d) :
    (if 0 ≤ s then decide (d ≤ n * 2 ^ s.toNat) else decide (d * 2 ^ (-s).toNat ≤ n)) = true ↔
      (2 : ℚ) ^ (-s) ≤ (n : ℚ) / d := by
  have hdq : (0 : ℚ) < d := by exact_mod_cast hd
  rw [le_div_iff₀ hdq]
  by_cases hs : 0 ≤ s
  · obtain ⟨k, rfl⟩ := Int.eq_ofNat_of_zero_le hs
    simp only [hs, if_true, Int.toNat_ofNat, decide_eq_true_eq, zpow_neg, zpow_natCast]
    have hp : (0 : ℚ) < 2 ^ k := by positivity
    rw [inv_mul_le_iff₀ hp]
    constructor
    · intro h
      have : ((d : Nat) : ℚ) ≤ ((n * 2 ^ k : Nat) : ℚ) := by exact_mod_cast h
      push_cast at this
      linarith
    · intro h
      have : ((d : Nat) : ℚ) ≤ ((n * 2 ^ k : Nat) : ℚ) := by push_cast; linarith
      exact_mod_cast this
  · have hs' : 0 ≤ -s := by omega
    obtain ⟨k, hk⟩ := Int.eq_ofNat_of_zero_le hs'
    simp only [hs, if_false, hk, Int.toNat_ofNat, decide_eq_true_eq, zpow_natCast]
    constructor
    · intro h
      have : ((d * 2 ^ k : Nat) : ℚ) ≤ ((n : Nat) : ℚ) := by exact_mod_cast h
      push_cast at this
      linarith
    · intro h
      have : ((d * 2 ^ k : Nat) : ℚ) ≤ ((n : Nat) : ℚ) := by push_cast; linarith
      exact_mod_cast this

/-- The exponent that `floorLog2` finds brackets the value `n / d * 2^x`. -/
theorem floorLog2_spec (n d : Nat) (x : Int) (hn : 0 < n) (hd : 0 < d) :
    (2 : ℚ) ^ (floorLog2 n d x) ≤ (n : ℚ) / d * 2 ^ x ∧
      (n : ℚ) / d * 2 ^ x < (2 : ℚ) ^ (floorLog2 n d x + 1) := by
  have hdq : (0 : ℚ) < d := by exact_mod_cast hd
  have hx : (0 : ℚ) < 2 ^ x := by positivity
  obtain ⟨hn1, hn2⟩ := log2_spec_rat n hn
  obtain ⟨hd1, hd2⟩ := log2_spec_rat d hd
  have h2 : (2 : ℚ) ≠ 0 := by norm_num
  -- the quotient lies within a factor two of the quotient of the powers
  have hlow : (2 : ℚ) ^ (-((log2 d : Int) - (log2 n : Int)) - 1) ≤ (n : ℚ) / d := by
    have e : (2 : ℚ) ^ (-((log2 d : Int) - (log2 n : Int)) - 1) =
        2 ^ (log2 n : Int) / 2 ^ ((log2 d : Int) + 1) := by
      rw [← zpow_sub₀ h2]; congr 1; ring
    rw [e, div_le_div_iff₀ (by positivity) hdq]
    have : (0 : ℚ) < 2 ^ (log2 n : Int) := by positivity
    nlinarith
  have hhigh : (n : ℚ) / d < (2 : ℚ) ^ (-((log2 d : Int) - (log2 n : Int)) + 1) := by
    have e : (2 : ℚ) ^ (-((log2 d : Int) - (log2 n : Int)) + 1) =
        2 ^ ((log2 n : Int) + 1) / 2 ^ (log2 d : Int) := by
      rw [← zpow_sub₀ h2]; congr 1; ring
    rw [e, div_lt_div_iff₀ hdq (by positivity)]
    have : (0 : ℚ) < 2 ^ (log2 d : Int) := by positivity
    have hnq : (0 : ℚ) < n := by exact_mod_cast hn
    nlinarith
  have hchk := floorLog2_check n d ((log2 d : Int) - (log2 n : Int)) hd
  unfold floorLog2
  simp only
  by_cases hge : (if 0 ≤ (log2 d : Int) - (log2 n : Int) then
      decide (d ≤ n * 2 ^ ((log2 d : Int) - (log2 n : Int)).toNat)
    else decide (d * 2 ^ (-((log2 d : Int) - (log2 n : Int))).toNat ≤ n)) = true
  · rw [if_pos hge]
    rw [hchk] at hge
    constructor
    · have e : (2 : ℚ) ^ (x - ((log2 d : Int) - (log2 n : Int))) =
          2 ^ (-((log2 d : Int) - (log2 n : Int))) * 2 ^ x := by
        rw [← zpow_add₀ h2]; congr 1; ring
      rw [e]
      exact mul_le_mul_of_nonneg_right hge hx.le
    · have e : (2 : ℚ) ^ (x - ((log2 d : Int) - (log2 n : Int)) + 1) =
          2 ^ (-((log2 d : Int) - (log2 n : Int)) + 1) * 2 ^ x := by
        rw [← zpow_add₀ h2]; congr 1; ring
      rw [e]
      exact mul_lt_mul_of_pos_right hhigh hx
  · rw [if_neg hge]
    rw [hchk, not_le] at hge
    constructor
    · have e : (2 : ℚ) ^ (x - ((log2 d : Int) - (log2 n : Int)) - 1) =
          2 ^ (-((log2 d : Int) - (log2 n : Int)) - 1) * 2 ^ x := by
        rw [← zpow_add₀ h2]; congr 1; ring
      rw [e]
      exact mul_le_mul_of_nonneg_right hlow hx.le
    · have e : (2 : ℚ) ^ (x - ((log2 d : Int) - (log2 n : Int)) - 1 + 1) =
          2 ^ (-((log2 d : Int) - (log2 n : Int))) * 2 ^ x := by
        rw [← zpow_add₀ h2]; congr 1; ring
      rw [e]
      exact mul_lt_mul_of_pos_right hge hx

/-- The rounded quotient, as a rational number, is within one half of the
exact quotient. -/
theorem rne_rat (num den : Nat) (hd : 0 < den) :
    (num : ℚ) / den - 1 / 2 ≤ (rne num den : ℚ) ∧ (rne num den : ℚ) ≤ (num : ℚ) / den + 1 / 2 := by
  obtain ⟨h1, h2⟩ := rne_nearest num den hd
  have hdq : (0 : ℚ) < den := by exact_mod_cast hd
  have h1q : (2 : ℚ) * ((rne num den : ℚ) * den) ≤ 2 * num + den := by exact_mod_cast h1
  have h2q : (2 : ℚ) * num ≤ 2 * ((rne num den : ℚ) * den) + den := by exact_mod_cast h2
  constructor
  · rw [sub_le_iff_le_add, div_le_iff₀ hdq]
    nlinarith
  · rw [← sub_le_iff_le_add, le_div_iff₀ hdq]
    nlinarith

/-- The significand that `round` computes at the exponent `e` is the rounding
of the value divided by `2^e`. -/
theorem scaled_quotient (n d : Nat) (x e : Int) (hd : 0 < d) :
    ∃ num den : Nat, 0 < den ∧
      (if 0 ≤ x - e then rne (n * 2 ^ (x - e).toNat) d else rne n (d * 2 ^ (e - x).toNat)) =
        rne num den ∧
      (num : ℚ) / den = (n : ℚ) / d * 2 ^ x * 2 ^ (-e) := by
  have hdq : (0 : ℚ) < d := by exact_mod_cast hd
  have h2 : (2 : ℚ) ≠ 0 := by norm_num
  by_cases h : 0 ≤ x - e
  · refine ⟨n * 2 ^ (x - e).toNat, d, hd, by rw [if_pos h], ?_⟩
    obtain ⟨k, hk⟩ := Int.eq_ofNat_of_zero_le h
    rw [hk, Int.toNat_ofNat]
    push_cast
    have hxe : x + -e = (k : Int) := by omega
    have : (2 : ℚ) ^ x * 2 ^ (-e) = 2 ^ k := by
      rw [← zpow_add₀ h2, hxe, zpow_natCast]
    rw [mul_assoc, this]
    field_simp
  · have h' : 0 ≤ e - x := by omega
    obtain ⟨k, hk⟩ := Int.eq_ofNat_of_zero_le h'
    refine ⟨n, d * 2 ^ (e - x).toNat, ?_, by rw [if_neg h], ?_⟩
    · exact Nat.mul_pos hd (by positivity)
    · rw [hk, Int.toNat_ofNat]
      push_cast
      have hxe : x + -e = -(k : Int) := by omega
      have : (2 : ℚ) ^ x * 2 ^ (-e) = (2 ^ k)⁻¹ := by
        rw [← zpow_add₀ h2, hxe, zpow_neg, zpow_natCast]
      rw [mul_assoc, this]
      field_simp

/-- In the normal range and below overflow, `round` yields a finite value at
the exponent `floorLog2 - 23`, within the relative error `2^-24` of the exact
value. -/
theorem round_normal (neg : Bool) (n d : Nat) (x : Int) (hn : 0 < n) (hd : 0 < d)
    (hlo : -149 ≤ floorLog2 n d x - 23) (hhi : floorLog2 n d x - 23 ≤ 103) :
    ∃ m : Nat, round neg n d x = fin neg m (floorLog2 n d x - 23) ∧
      ((n : ℚ) / d * 2 ^ x) * (1 - 2 ^ (-24 : Int)) ≤ (m : ℚ) * 2 ^ (floorLog2 n d x - 23) ∧
      (m : ℚ) * 2 ^ (floorLog2 n d x - 23) ≤ ((n : ℚ) / d * 2 ^ x) * (1 + 2 ^ (-24 : Int)) := by
  obtain ⟨hL, _⟩ := floorLog2_spec n d x hn hd
  obtain ⟨L, hLd⟩ : ∃ L, floorLog2 n d x = L := ⟨_, rfl⟩
  rw [hLd] at hL hlo hhi ⊢
  obtain ⟨num, den, hden, hm, hq⟩ := scaled_quotient n d x (L - 23) hd
  refine ⟨rne num den, ?_, ?_⟩
  · unfold round
    rw [if_neg (by omega)]
    simp only
    rw [hLd]
    have he : max (L - 23) (-149) = L - 23 := max_eq_left hlo
    rw [he, hm]
    rw [if_neg (by omega)]
  · obtain ⟨r1, r2⟩ := rne_rat num den hden
    rw [hq] at r1 r2
    have h2 : (2 : ℚ) ≠ 0 := by norm_num
    have hpe : (0 : ℚ) < 2 ^ (L - 23) := by positivity
    have hinv : (2 : ℚ) ^ (-(L - 23)) * 2 ^ (L - 23) = 1 := by
      rw [← zpow_add₀ h2]; simp
    -- the scaled value `S` is at least 2^23
    have hS : (2 : ℚ) ^ (23 : Int) ≤ (n : ℚ) / d * 2 ^ x * 2 ^ (-(L - 23)) := by
      have e : (2 : ℚ) ^ (23 : Int) = 2 ^ L * 2 ^ (-(L - 23)) := by
        rw [← zpow_add₀ h2]; congr 1; ring
      rw [e]
      exact mul_le_mul_of_nonneg_right hL (by positivity)
    have hSV : (n : ℚ) / d * 2 ^ x * 2 ^ (-(L - 23)) * 2 ^ (L - 23) = (n : ℚ) / d * 2 ^ x := by
      rw [mul_assoc, hinv, mul_one]
    generalize (n : ℚ) / d * 2 ^ x * 2 ^ (-(L - 23)) = S at r1 r2 hS hSV
    rw [← hSV]
    have hu : (2 : ℚ) ^ (-24 : Int) * 2 ^ (23 : Int) = 1 / 2 := by norm_num
    have hupos : (0 : ℚ) < 2 ^ (-24 : Int) := by positivity
    have hhalf : (1 : ℚ) / 2 ≤ 2 ^ (-24 : Int) * S := by
      rw [← hu]
      exact mul_le_mul_of_nonneg_left hS hupos.le
    clear hu
    generalize (2 : ℚ) ^ (-24 : Int) = u at hupos hhalf ⊢
    constructor
    · have h1 : S * (1 - u) ≤ (rne num den : ℚ) := by
        have : S * (1 - u) = S - u * S := by ring
        rw [this]; linarith
      calc S * 2 ^ (L - 23) * (1 - u)
          = S * (1 - u) * 2 ^ (L - 23) := by ring
        _ ≤ (rne num den : ℚ) * 2 ^ (L - 23) := mul_le_mul_of_nonneg_right h1 hpe.le
    · have h1 : (rne num den : ℚ) ≤ S * (1 + u) := by
        have : S * (1 + u) = S + u * S := by ring
        rw [this]; linarith
      calc (rne num den : ℚ) * 2 ^ (L - 23)
          ≤ S * (1 + u) * 2 ^ (L - 23) :=
            mul_le_mul_of_nonneg_right h1 hpe.le
        _ = S * 2 ^ (L - 23) * (1 + u) := by ring

theorem rne_one (k : Nat) : rne k 1 = k := by
  simp [rne, Nat.mod_one]

/-- Below `2^exp` the binary logarithm is below `exp`. -/
theorem lt_of_zpow_le_lt {L : Int} {V : ℚ} {b : Int} (h1 : (2 : ℚ) ^ L ≤ V)
    (h2 : V < (2 : ℚ) ^ b) : L < b := by
  by_contra hc
  have hle : b ≤ L := by omega
  have : (2 : ℚ) ^ b ≤ 2 ^ L := zpow_le_zpow_right₀ (by norm_num) hle
  linarith

/-- In the range of the normal numbers `round` is within the relative error
`2^-24`. -/
theorem round_in_range (neg : Bool) (n d : Nat) (x : Int) (hn : 0 < n) (hd : 0 < d)
    (hlo : (2 : ℚ) ^ (-126 : Int) ≤ (n : ℚ) / d * 2 ^ x)
    (hhi : (n : ℚ) / d * 2 ^ x < (2 : ℚ) ^ (127 : Int)) :
    ∃ (m : Nat) (e : Int), round neg n d x = fin neg m e ∧
      ((n : ℚ) / d * 2 ^ x) * (1 - 2 ^ (-24 : Int)) ≤ (m : ℚ) * 2 ^ e ∧
      (m : ℚ) * 2 ^ e ≤ ((n : ℚ) / d * 2 ^ x) * (1 + 2 ^ (-24 : Int)) := by
  obtain ⟨hL1, hL2⟩ := floorLog2_spec n d x hn hd
  have h1 : floorLog2 n d x < 127 := lt_of_zpow_le_lt hL1 hhi
  have h2 : (-126 : Int) < floorLog2 n d x + 1 := lt_of_zpow_le_lt hlo hL2
  obtain ⟨m, hm, hb⟩ := round_normal neg n d x hn hd (by omega) (by omega)
  exact ⟨m, _, hm, hb⟩

/-- A count below `2^24` is converted exactly. -/
theorem ofNat_exact (n : Nat) (hn : n < 2 ^ 24) :
    ∃ (m : Nat) (e : Int), ofNat n = fin false m e ∧ (m : ℚ) * 2 ^ e = n := by
  rcases Nat.eq_zero_or_pos n with rfl | hpos
  · exact ⟨0, 0, rfl, by simp⟩
  · have hV : (n : ℚ) / (1 : Nat) * 2 ^ (0 : Int) = n := by simp
    obtain ⟨hL1, hL2⟩ := floorLog2_spec n 1 0 hpos Nat.one_pos
    rw [hV] at hL1 hL2
    have hnq : (n : ℚ) < (2 : ℚ) ^ (24 : Int) := by
      have h16 : (n : ℚ) < 16777216 := by
        have : n < 16777216 := by omega
        exact_mod_cast this
      have e24 : (2 : ℚ) ^ (24 : Int) = 16777216 := by norm_num
      rw [e24]; exact h16
    have h1q : (2 : ℚ) ^ (0 : Int) ≤ (n : ℚ) := by
      have : (1 : ℚ) ≤ (n : ℚ) := by exact_mod_cast hpos
      rw [zpow_zero]; exact this
    have hLhi : floorLog2 n 1 0 < 24 := lt_of_zpow_le_lt hL1 hnq
    have hLlo : (0 : Int) < floorLog2 n 1 0 + 1 := lt_of_zpow_le_lt h1q hL2
    obtain ⟨L, hLd⟩ : ∃ L, floorLog2 n 1 0 = L := ⟨_, rfl⟩
    rw [hLd] at hLhi hLlo
    have hk : 0 ≤ 0 - (L - 23) := by omega
    obtain ⟨k, hkd⟩ := Int.eq_ofNat_of_zero_le hk
    refine ⟨n * 2 ^ k, L - 23, ?_, ?_⟩
    · unfold ofNat round
      rw [if_neg (by omega)]
      simp only
      rw [hLd, max_eq_left (by omega), if_pos hk, hkd, Int.toNat_ofNat, rne_one]
      rw [if_neg (by omega)]
    · push_cast
      have h2 : (2 : ℚ) ≠ 0 := by norm_num
      have : (2 : ℚ) ^ k * 2 ^ (L - 23) = 1 := by
        rw [← zpow_natCast, ← zpow_add₀ h2, ← hkd]; simp
      rw [mul_assoc, this, mul_one]

/-- The comparison of two nonnegative finite values is the comparison of the
numbers they denote. -/
theorem le_fin_iff (m n : Nat) (e f : Int) :
    le (fin false m e) (fin false n f) = true ↔ (m : ℚ) * 2 ^ e ≤ (n : ℚ) * 2 ^ f := by
  have h2 : (2 : ℚ) ≠ 0 := by norm_num
  simp only [le, scaled, Bool.false_eq_true, if_false, decide_eq_true_eq, Int.ofNat_le]
  have hk1 : 0 ≤ e - min e f := by omega
  have hk2 : 0 ≤ f - min e f := by omega
  obtain ⟨a, ha⟩ := Int.eq_ofNat_of_zero_le hk1
  obtain ⟨b, hb⟩ := Int.eq_ofNat_of_zero_le hk2
  rw [ha, hb, Int.toNat_ofNat, Int.toNat_ofNat]
  have hpos : (0 : ℚ) < 2 ^ (min e f) := by positivity
  have ea : (2 : ℚ) ^ e = 2 ^ a * 2 ^ (min e f) := by
    rw [← zpow_natCast, ← zpow_add₀ h2, ← ha]; congr 1; ring
  have eb : (2 : ℚ) ^ f = 2 ^ b * 2 ^ (min e f) := by
    rw [← zpow_natCast, ← zpow_add₀ h2, ← hb]; congr 1; ring
  rw [ea, eb, ← mul_assoc, ← mul_assoc, mul_le_mul_right hpos]
  constructor
  · intro h
    have : ((m * 2 ^ a : Nat) : ℚ) ≤ ((n * 2 ^ b : Nat) : ℚ) := by exact_mod_cast h
    simpa using this
  · intro h
    have : ((m * 2 ^ a : Nat) : ℚ) ≤ ((n * 2 ^ b : Nat) : ℚ) := by simpa using h
    exact_mod_cast this

theorem ofNat_hundred : ofNat 100 = fin false 13107200 (-17) := by decide

/-- The `float32` hit rate of two counts below `2^24`, `(hits / runs) * 100`
with both operations rounded, is a finite nonnegative value within the
relative error `(1 ± 2^-24)^2` of the exact rate. -/
theorem rate_bounds (h r : Nat) (hh : 0 < h) (hr : 0 < r) (hh24 : h < 2 ^ 24)
    (hr24 : r < 2 ^ 24) :
    ∃ (m : Nat) (e : Int), mul (div (ofNat h) (ofNat r)) (ofNat 100) = fin false m e ∧
      100 * ((h : ℚ) / r) * ((1 - 1 / 16777216) * (1 - 1 / 16777216)) ≤ (m : ℚ) * 2 ^ e ∧
      (m : ℚ) * 2 ^ e ≤ 100 * ((h : ℚ) / r) * ((1 + 1 / 16777216) * (1 + 1 / 16777216)) := by
  have hu : (2 : ℚ) ^ (-24 : Int) = 1 / 16777216 := by norm_num
  have h2 : (2 : ℚ) ≠ 0 := by norm_num
  obtain ⟨mh, eh, hofh, hvh⟩ := ofNat_exact h hh24
  obtain ⟨mr, er, hofr, hvr⟩ := ofNat_exact r hr24
  have hhq : (1 : ℚ) ≤ h := by exact_mod_cast hh
  have hrq : (1 : ℚ) ≤ r := by exact_mod_cast hr
  have hh16 : (h : ℚ) < 16777216 := by
    have : h < 16777216 := by omega
    exact_mod_cast this
  have hr16 : (r : ℚ) < 16777216 := by
    have : r < 16777216 := by omega
    exact_mod_cast this
  have hmh : 0 < mh := by
    rcases Nat.eq_zero_or_pos mh with h0 | h0
    · rw [h0] at hvh; simp at hvh; linarith
    · exact h0
  have hmr : 0 < mr := by
    rcases Nat.eq_zero_or_pos mr with h0 | h0
    · rw [h0] at hvr; simp at hvr; linarith
    · exact h0
  -- the exact quotient
  have hV : (mh : ℚ) / mr * 2 ^ (eh - er) = (h : ℚ) / r := by
    rw [← hvh, ← hvr, zpow_sub₀ h2]
    have : (mr : ℚ) ≠ 0 := by exact_mod_cast hmr.ne'
    field_simp
  have hy0 : (1 : ℚ) / 16777216 ≤ (h : ℚ) / r := by
    rw [div_le_div_iff₀ (by norm_num) (by linarith)]; linarith
  have hy1 : (h : ℚ) / r < 16777216 := by
    rw [div_lt_iff₀ (by linarith)]; nlinarith
  obtain ⟨mq, eq, hq, hq1, hq2⟩ := round_in_range false mh mr (eh - er) hmh hmr
    (by rw [hV]; have : (2 : ℚ) ^ (-126 : Int) ≤ 1 / 16777216 := by norm_num
        exact le_trans this hy0)
    (by rw [hV]; have : (16777216 : ℚ) ≤ 2 ^ (127 : Int) := by norm_num
        exact lt_of_lt_of_le hy1 this)
  rw [hV, hu] at hq1 hq2
  have hdiv : div (ofNat h) (ofNat r) = fin false mq eq := by
    rw [hofh, hofr]
    simp only [div, if_neg hmr.ne', Bool.xor_false]
    exact hq
  generalize (h : ℚ) / r = y at hy0 hy1 hq1 hq2 ⊢
  have hqlo : (1 : ℚ) / 33554432 ≤ (mq : ℚ) * 2 ^ eq := by nlinarith
  have hqhi : (mq : ℚ) * 2 ^ eq ≤ 33554432 := by nlinarith
  have hmq : 0 < mq := by
    rcases Nat.eq_zero_or_pos mq with h0 | h0
    · rw [h0] at hqlo; simp at hqlo; linarith
    · exact h0
  -- the exact product
  have hW : ((mq * 13107200 : Nat) : ℚ) / (1 : Nat) * 2 ^ (eq + -17) =
      100 * ((mq : ℚ) * 2 ^ eq) := by
    rw [zpow_add₀ h2]
    have : (2 : ℚ) ^ (-17 : Int) = 1 / 131072 := by norm_num
    rw [this]; push_cast; ring
  obtain ⟨mt, et, ht, ht1, ht2⟩ := round_in_range false (mq * 13107200) 1 (eq + -17)
    (Nat.mul_pos hmq (by norm_num)) Nat.one_pos
    (by rw [hW]; have : (2 : ℚ) ^ (-126 : Int) ≤ 1 / 33554432 := by norm_num
        exact le_trans this (by linarith))
    (by rw [hW]; have : (3355443200 : ℚ) < 2 ^ (127 : Int) := by norm_num
        exact lt_of_le_of_lt (by linarith) this)
  rw [hW, hu] at ht1 ht2
  refine ⟨mt, et, ?_, ?_, ?_⟩
  · rw [hdiv, ofNat_hundred]
    simp only [mul, Bool.xor_false]
    exact ht
  · have : 100 * y * ((1 - 1 / 16777216) * (1 - 1 / 16777216)) =
        100 * (y * (1 - 1 / 16777216)) * (1 - 1 / 16777216) := by ring
    rw [this]
    have : 100 * (y * (1 - 1 / 16777216)) * (1 - 1 / 16777216) ≤
        100 * ((mq : ℚ) * 2 ^ eq) * (1 - 1 / 16777216) := by
      apply mul_le_mul_of_nonneg_right _ (by norm_num)
      linarith
    linarith
  · have : 100 * y * ((1 + 1 / 16777216) * (1 + 1 / 16777216)) =
        100 * (y * (1 + 1 / 16777216)) * (1 + 1 / 16777216) := by ring
    rw [this]
    have : 100 * ((mq : ℚ) * 2 ^ eq) * (1 + 1 / 16777216) ≤
        100 * (y * (1 + 1 / 16777216)) * (1 + 1 / 16777216) := by
      apply mul_le_mul_of_nonneg_right _ (by norm_num)
      linarith
    linarith

/-- While `p * runs < 2^23`, a hit rate that is above the percentage in exact
arithmetic is above it in `float32` as well. -/
theorem rate_above (h r p : Nat) (hr : 0 < r) (hh24 : h < 2 ^ 24) (hr24 : r < 2 ^ 24)
    (hpr : p * r < 2 ^ 23) (habove : p * r < 100 * h) :
    le (mul (div (ofNat h) (ofNat r)) (ofNat 100)) (ofNat p) = false := by
  have hh : 0 < h := by omega
  have hp24 : p < 2 ^ 24 := by
    have : p * 1 ≤ p * r := Nat.mul_le_mul_left p hr
    omega
  obtain ⟨mt, et, ht, ht1, _⟩ := rate_bounds h r hh hr hh24 hr24
  obtain ⟨mp, ep, hofp, hvp⟩ := ofNat_exact p hp24
  rw [ht, hofp]
  rw [Bool.eq_false_iff, Ne, le_fin_iff, hvp]
  intro hle
  have hrq : (0 : ℚ) < r := by exact_mod_cast hr
  have hprq : (p : ℚ) * r ≤ 8388607 := by
    have : p * r ≤ 8388607 := by omega
    exact_mod_cast this
  have habq : (p : ℚ) * r + 1 ≤ 100 * h := by
    have : p * r + 1 ≤ 100 * h := by omega
    exact_mod_cast this
  have hy : (h : ℚ) / r * r = h := div_mul_cancel₀ _ hrq.ne'
  have h1 : 100 * ((h : ℚ) / r) * ((1 - 1 / 16777216) * (1 - 1 / 16777216)) ≤ p := by linarith
  have h3 : 100 * ((h : ℚ) / r) * ((1 - 1 / 16777216) * (1 - 1 / 16777216)) * r ≤ p * r :=
    mul_le_mul_of_nonneg_right h1 hrq.le
  have h4 : 100 * ((h : ℚ) / r) * ((1 - 1 / 16777216) * (1 - 1 / 16777216)) * r =
      100 * ((h : ℚ) / r * r) * ((1 - 1 / 16777216) * (1 - 1 / 16777216)) := by ring
  rw [h4, hy] at h3
  generalize (p : ℚ) * r = X at h3 hprq habq
  generalize (h : ℚ) = H at h3 habq
  norm_num at h3
  linarith

/-- The `float32` hit rate of positive counts below `2^24` is positive. -/
theorem rate_pos (h r : Nat) (hh : 0 < h) (hr : 0 < r) (hh24 : h < 2 ^ 24)
    (hr24 : r < 2 ^ 24) :
    ∃ (m : Nat) (e : Int), mul (div (ofNat h) (ofNat r)) (ofNat 100) = fin false m e ∧ 0 < m := by
  obtain ⟨mt, et, ht, ht1, _⟩ := rate_bounds h r hh hr hh24 hr24
  refine ⟨mt, et, ht, ?_⟩
  have hhq : (1 : ℚ) ≤ h := by exact_mod_cast hh
  have hrq : (0 : ℚ) < r := by exact_mod_cast hr
  have hy : (0 : ℚ) < (h : ℚ) / r := div_pos (by linarith) hrq
  rcases Nat.eq_zero_or_pos mt with h0 | h0
  · rw [h0] at ht1
    simp only [Nat.cast_zero, zero_mul] at ht1
    have : 0 < 100 * ((h : ℚ) / r) * ((1 - 1 / 16777216) * (1 - 1 / 16777216)) := by positivity
    linarith
  · exact h0

/-- A positive finite value is not `<=` a zero. -/
theorem le_fin_zero (m : Nat) (e f : Int) (s : Bool) (hm : 0 < m) :
    le (fin false m e) (fin s 0 f) = false := by
  simp only [le, scaled, Bool.false_eq_true, if_false, zero_mul, Nat.cast_zero, neg_zero,
    ite_self, decide_eq_false_iff_not, not_le]
  have : 0 < m * 2 ^ (e - min e f).toNat := Nat.mul_pos hm (by positivity)
  exact_mod_cast this

end F32

/-! ## The fan-in loop -/

theorem foldl_receive_of_no_sender (ds : List (Delivery Val Err Pan))
    (acc : Observations Val Err Pan) (n : String)
    (h : ∀ d ∈ ds, ∀ ob, d.sent = some ob → ob.Name ≠ n) :
    ds.foldl Observations.receive acc n = acc n := by
  induction ds generalizing acc with
  | nil => rfl
  | cons d ds ih =>
    rw [List.foldl_cons, ih _ (fun d' hd' => h d' (List.mem_cons_of_mem _ hd'))]
    unfold Observations.receive
    cases hs : d.sent with
    | none => rfl
    | some ob =>
      have hne := h d (List.mem_cons_self _ _) ob hs
      simp only [Observations.put]
      rw [if_neg (fun hn => hne hn.symm)]

theorem foldl_receive_of_unique_sender (ds : List (Delivery Val Err Pan))
    (acc : Observations Val Err Pan) (ob : Observation Val Err Pan)
    (hmem : ∃ d ∈ ds, d.sent = some ob)
    (huniq : ∀ d ∈ ds, ∀ ob', d.sent = some ob' → ob'.Name = ob.Name → ob' = ob) :
    ds.foldl Observations.receive acc ob.Name = some ob := by
  induction ds generalizing acc with
  | nil => obtain ⟨d, hd, _⟩ := hmem; cases hd
  | cons d ds ih =>
    rw [List.foldl_cons]
    by_cases hrest : ∃ d' ∈ ds, d'.sent = some ob
    · exact ih _ hrest (fun d' hd' => huniq d' (List.mem_cons_of_mem _ hd'))
    · obtain ⟨d0, hd0, hs0⟩ := hmem
      have hd : d.sent = some ob := by
        rcases List.mem_cons.mp hd0 with rfl | hin
        · exact hs0
        · exact absurd ⟨d0, hin, hs0⟩ hrest
      rw [foldl_receive_of_no_sender]
      · simp [Observations.receive, hd, Observations.put]
      · intro d' hd' ob' hs' hn
        have := huniq d' (List.mem_cons_of_mem _ hd') ob' hs' hn
        exact hrest ⟨d', hd', this ▸ hs'⟩

theorem collect_of_no_sender (ds : List (Delivery Val Err Pan)) (n : String)
    (h : ∀ d ∈ ds, ∀ ob, d.sent = some ob → ob.Name ≠ n) : collect ds n = none :=
  foldl_receive_of_no_sender ds _ n h

theorem collect_of_unique_sender (ds : List (Delivery Val Err Pan))
    (ob : Observation Val Err Pan) (hmem : ∃ d ∈ ds, d.sent = some ob)
    (huniq : ∀ d ∈ ds, ∀ ob', d.sent = some ob' → ob'.Name = ob.Name → ob' = ob) :
    collect ds ob.Name = some ob :=
  foldl_receive_of_unique_sender ds _ ob hmem huniq

/-- Whatever is stored under a name was sent under that name. -/
theorem foldl_receive_some (ds : List (Delivery Val Err Pan))
    (acc : Observations Val Err Pan) (n : String) (ob : Observation Val Err Pan)
    (h : ds.foldl Observations.receive acc n = some ob) :
    acc n = some ob ∨ (ob.Name = n ∧ ∃ d ∈ ds, d.sent = some ob) := by
  induction ds generalizing acc with
  | nil => exact Or.inl h
  | cons d ds ih =>
    rw [List.foldl_cons] at h
    rcases ih _ h with h1 | ⟨hn, d', hd', hs'⟩
    · unfold Observations.receive at h1
      cases hs : d.sent with
      | none => rw [hs] at h1; exact Or.inl h1
      | some ob0 =>
        rw [hs] at h1
        simp only [Observations.put] at h1
        by_cases hn : n = ob0.Name
        · rw [if_pos hn] at h1
          have h2 : ob0 = ob := Option.some.inj h1
          subst h2
          exact Or.inr ⟨hn.symm, d, List.mem_cons_self _ _, hs⟩
        · rw [if_neg hn] at h1; exact Or.inl h1
    · exact Or.inr ⟨hn, d', List.mem_cons_of_mem _ hd', hs'⟩

theorem collect_some (ds : List (Delivery Val Err Pan)) (n : String)
    (ob : Observation Val Err Pan) (h : collect ds n = some ob) :
    ob.Name = n ∧ ∃ d ∈ ds, d.sent = some ob := by
  rcases foldl_receive_some ds _ n ob h with h1 | h2
  · cases h1
  · exact h2

/-- An entry, once stored, is never removed. -/
theorem foldl_receive_keeps (ds : List (Delivery Val Err Pan))
    (acc : Observations Val Err Pan) (n : String) (h : (acc n).isSome = true) :
    (ds.foldl Observations.receive acc n).isSome = true := by
  induction ds generalizing acc with
  | nil => exact h
  | cons d ds ih =>
    rw [List.foldl_cons]
    apply ih
    unfold Observations.receive
    cases hs : d.sent with
    | none => exact h
    | some ob =>
      simp only [Observations.put]
      by_cases hn : n = ob.Name
      · rw [if_pos hn]; rfl
      · rw [if_neg hn]; exact h

/-- A name under which something was sent has an entry. -/
theorem foldl_receive_of_sender (ds : List (Delivery Val Err Pan))
    (acc : Observations Val Err Pan) (ob : Observation Val Err Pan)
    (hmem : ∃ d ∈ ds, d.sent = some ob) :
    (ds.foldl Observations.receive acc ob.Name).isSome = true := by
  induction ds generalizing acc with
  | nil => obtain ⟨d, hd, _⟩ := hmem; cases hd
  | cons d ds ih =>
    rw [List.foldl_cons]
    obtain ⟨d0, hd0, hs0⟩ := hmem
    rcases List.mem_cons.mp hd0 with rfl | hin
    · apply foldl_receive_keeps
      simp [Observations.receive, hs0, Observations.put]
    · exact ih _ ⟨d0, hin, hs0⟩

theorem collect_of_sender (ds : List (Delivery Val Err Pan))
    (ob : Observation Val Err Pan) (hmem : ∃ d ∈ ds, d.sent = some ob) :
    ∃ ob', collect ds ob.Name = some ob' ∧ ob'.Name = ob.Name := by
  have h := foldl_receive_of_sender ds (fun _ => none) ob hmem
  obtain ⟨ob', hob'⟩ := Option.isSome_iff_exists.mp h
  exact ⟨ob', hob', (collect_some ds _ ob' hob').1⟩

/-- The order of arrival does not matter when no two Observations are sent
under one name. -/
theorem collect_perm (ds ds' : List (Delivery Val Err Pan)) (hp : ds.Perm ds')
    (hu : ∀ d ∈ ds, ∀ d' ∈ ds, ∀ ob ob', d.sent = some ob → d'.sent = some ob' →
      ob.Name = ob'.Name → ob = ob') : collect ds = collect ds' := by
  funext n
  by_cases h : ∃ d ∈ ds, ∃ ob, d.sent = some ob ∧ ob.Name = n
  · obtain ⟨d, hd, ob, hs, rfl⟩ := h
    rw [collect_of_unique_sender ds ob ⟨d, hd, hs⟩
        (fun d' hd' ob' hs' hn => hu d' hd' d hd ob' ob hs' hs hn),
      collect_of_unique_sender ds' ob ⟨d, hp.mem_iff.mp hd, hs⟩
        (fun d' hd' ob' hs' hn => hu d' (hp.mem_iff.mpr hd') d hd ob' ob hs' hs hn)]
  · have hno : ∀ d ∈ ds, ∀ ob, d.sent = some ob → ob.Name ≠ n :=
      fun d hd ob hs hn => h ⟨d, hd, ob, hs, hn⟩
    rw [collect_of_no_sender ds n hno,
      collect_of_no_sender ds' n (fun d hd => hno d (hp.mem_iff.mpr hd))]

/-! ## `observe` -/

theorem observe_returns (r : experimentRunner Ctx Val Err Pan) (ctx : Ctx)
    (b : behaviour Ctx Val Err Pan) (tm : Bool) (v : Option Val) (e : Option Err)
    (h : b.fnc ctx = Outcome.returns v e) :
    r.observe ctx (some b) tm =
      { sent := some { Name := b.name, Value := v, Error := e, Panic := none },
        escaped := none } := by
  simp only [experimentRunner.observe, runObservation, h]
  split <;> rfl

theorem observe_panics_recovered (r : experimentRunner Ctx Val Err Pan) (ctx : Ctx)
    (b : behaviour Ctx Val Err Pan) (p : Pan)
    (h : b.fnc ctx = Outcome.panics p) (hname : b.name ≠ controlKey) :
    r.observe ctx (some b) false =
      { sent := some { Name := b.name, Value := none, Error := none, Panic := some p },
        escaped := none } := by
  simp [experimentRunner.observe, runObservation, h, hname]

theorem observe_panics_escapes (r : experimentRunner Ctx Val Err Pan) (ctx : Ctx)
    (b : behaviour Ctx Val Err Pan) (tm : Bool) (p : Pan)
    (h : b.fnc ctx = Outcome.panics p) (hname : b.name = controlKey ∨ tm = true) :
    r.observe ctx (some b) tm =
      { sent := some { Name := b.name, Value := none, Error := none, Panic := none },
        escaped := some (Fault.raised p) } := by
  rcases hname with hn | ht
  · simp [experimentRunner.observe, runObservation, h, hn]
  · simp [experimentRunner.observe, runObservation, h, ht]

/-- Every `observe` on a registered behaviour sends an Observation under the
name of the behaviour. -/
theorem observe_sends (r : experimentRunner Ctx Val Err Pan) (ctx : Ctx)
    (b : behaviour Ctx Val Err Pan) (tm : Bool) :
    ∃ ob, (r.observe ctx (some b) tm).sent = some ob ∧ ob.Name = b.name := by
  cases h : b.fnc ctx with
  | returns v e => rw [observe_returns r ctx b tm v e h]; exact ⟨_, rfl, rfl⟩
  | panics p =>
    by_cases hc : b.name = controlKey ∨ tm = true
    · rw [observe_panics_escapes r ctx b tm p h hc]; exact ⟨_, rfl, rfl⟩
    · have hn : b.name ≠ controlKey := fun hn => hc (Or.inl hn)
      have ht : tm = false := by
        cases tm
        · rfl
        · exact absurd (Or.inr rfl) hc
      subst ht
      rw [observe_panics_recovered r ctx b p h hn]; exact ⟨_, rfl, rfl⟩

/-- The receiver plays no part in `observe`. -/
theorem observe_receiver (r r' : experimentRunner Ctx Val Err Pan) (ctx : Ctx)
    (beh : Option (behaviour Ctx Val Err Pan)) (tm : Bool) :
    r.observe ctx beh tm = r'.observe ctx beh tm := rfl

/-! ## The behaviour map -/

theorem mem_of_lookup {β : Type} (l : List (String × β)) (k : String) (b : β)
    (h : l.lookup k = some b) : (k, b) ∈ l := by
  induction l with
  | nil => cases h
  | cons a l ih =>
    obtain ⟨k', b'⟩ := a
    by_cases hk : k = k'
    · subst hk
      simp only [List.lookup, beq_self_eq_true] at h
      cases h
      exact List.mem_cons_self _ _
    · have hb : (k == k') = false := by simpa using hk
      simp only [List.lookup, hb] at h
      exact List.mem_cons_of_mem _ (ih h)

theorem experimentRunner.WellKeyed.eq_of_key_eq {r : experimentRunner Ctx Val Err Pan} (h : r.WellKeyed)
    {kb kb' : String × behaviour Ctx Val Err Pan} (hm : kb ∈ r.behaviours)
    (hm' : kb' ∈ r.behaviours) (hk : kb.1 = kb'.1) : kb = kb' :=
  List.inj_on_of_nodup_map h.1 hm hm' hk

theorem experimentRunner.WellKeyed.eq_of_name_eq {r : experimentRunner Ctx Val Err Pan} (h : r.WellKeyed)
    {kb kb' : String × behaviour Ctx Val Err Pan} (hm : kb ∈ r.behaviours)
    (hm' : kb' ∈ r.behaviours) (hn : kb.2.name = kb'.2.name) : kb = kb' :=
  h.eq_of_key_eq hm hm' (by rw [← h.2 kb hm, ← h.2 kb' hm', hn])

/-! ## The observations of one call, by the map that was selected -/

theorem Run_obs (background : Ctx) (tm : Bool) (r : experimentRunner Ctx Val Err Pan)
    (ctx : Option Ctx) :
    (r.Run background tm ctx).obs =
      collect (deliveries r (r.runContext background ctx) tm r.select.2) := rfl

theorem Run_escaped (background : Ctx) (tm : Bool) (r : experimentRunner Ctx Val Err Pan)
    (ctx : Option Ctx) :
    (r.Run background tm ctx).escaped =
      (deliveries r (r.runContext background ctx) tm r.select.2).filterMap
        (fun d => d.escaped) := rfl

theorem Run_runner (background : Ctx) (tm : Bool) (r : experimentRunner Ctx Val Err Pan)
    (ctx : Option Ctx) : (r.Run background tm ctx).runner = r.select.1 := rfl

theorem select_cases (r : experimentRunner Ctx Val Err Pan) :
    r.select.2 = r.controlOnly ∨ r.select.2 = r.allBehaviours := by
  unfold experimentRunner.select
  by_cases hd : r.disabled = true
  · simp [hd]
  · by_cases hf : r.force = true
    · simp [hd, hf]
    · simp only [hd, hf, if_false, Bool.false_eq_true]
      split
      · exact Or.inr rfl
      · exact Or.inl rfl

/-- With only the control selected, the Observations hold what `observe` sent
for the control, under its name, and nothing else. -/
theorem collect_controlOnly (r : experimentRunner Ctx Val Err Pan) (c : Ctx) (tm : Bool)
    (b : behaviour Ctx Val Err Pan) (hreg : r.behaviours.lookup controlKey = some b) :
    ∃ ob, (r.observe c (some b) tm).sent = some ob ∧ ob.Name = b.name ∧
      collect (deliveries r c tm r.controlOnly) = (fun n => if n = b.name then some ob else none) := by
  obtain ⟨ob, hs, hn⟩ := observe_sends r c b tm
  refine ⟨ob, hs, hn, ?_⟩
  funext n
  simp [collect, deliveries, experimentRunner.controlOnly, hreg, Observations.receive, hs,
    Observations.put, hn]

/-- With the whole map selected, every registered behaviour has, under its
name, exactly what `observe` sent for it. -/
theorem collect_allBehaviours (r : experimentRunner Ctx Val Err Pan) (c : Ctx) (tm : Bool)
    (hkeys : r.WellKeyed) (k : String) (b : behaviour Ctx Val Err Pan)
    (hmem : (k, b) ∈ r.behaviours) :
    collect (deliveries r c tm r.allBehaviours) k = (r.observe c (some b) tm).sent := by
  obtain ⟨ob, hs, hn⟩ := observe_sends r c b tm
  have hk : b.name = k := hkeys.2 (k, b) hmem
  rw [hs, ← hk, ← hn]
  apply collect_of_unique_sender
  · refine ⟨r.observe c (some b) tm, ?_, hs⟩
    simp only [deliveries, experimentRunner.allBehaviours, List.map_map, List.mem_map]
    exact ⟨(k, b), hmem, rfl⟩
  · intro d hd ob' hs' hn'
    simp only [deliveries, experimentRunner.allBehaviours, List.map_map, List.mem_map] at hd
    obtain ⟨kb', hm', rfl⟩ := hd
    obtain ⟨ob2, hs2, hn2⟩ := observe_sends r c kb'.2 tm
    simp only [Function.comp] at hs'
    rw [hs2] at hs'
    cases hs'
    have : kb' = (k, b) := hkeys.eq_of_name_eq hm' hmem (by rw [← hn2, hn', hn])
    subst this
    rw [hs] at hs2
    exact (Option.some.inj hs2).symm

/-- With the whole map selected, a name that is no key of the map has no entry. -/
theorem collect_allBehaviours_none (r : experimentRunner Ctx Val Err Pan) (c : Ctx) (tm : Bool)
    (hkeys : r.WellKeyed) (n : String) (hn : ∀ kb ∈ r.behaviours, kb.1 ≠ n) :
    collect (deliveries r c tm r.allBehaviours) n = none := by
  apply collect_of_no_sender
  intro d hd ob hs
  simp only [deliveries, experimentRunner.allBehaviours, List.map_map, List.mem_map] at hd
  obtain ⟨kb', hm', rfl⟩ := hd
  obtain ⟨ob2, hs2, hn2⟩ := observe_sends r c kb'.2 tm
  simp only [Function.comp] at hs
  rw [hs2] at hs
  cases hs
  rw [hn2, hkeys.2 kb' hm']
  exact hn kb' hm'

/-! ## The four modes of `Run` -/

theorem select_disabled (r : experimentRunner Ctx Val Err Pan) (hd : r.disabled = true) :
    r.select = (r, r.controlOnly) := by
  simp [experimentRunner.select, hd]

theorem select_forced (r : experimentRunner Ctx Val Err Pan) (hd : r.disabled = false)
    (hf : r.force = true) : r.select = (r, r.allBehaviours) := by
  simp [experimentRunner.select, hd, hf]

theorem select_sampled_in (r : experimentRunner Ctx Val Err Pan) (hd : r.disabled = false)
    (hf : r.force = false) (hs : r.shouldRun = true) :
    r.select =
      ({ r with experiment := r.experiment.run.hit, hasRun := true }, r.allBehaviours) := by
  obtain ⟨ex, bs, cfg, tm, d, f, hr, h, ru⟩ := r
  simp only at hd hf
  subst hd hf
  have hs1 : (⟨ex.run, bs, cfg, tm, false, false, hr, h, ru⟩ :
      experimentRunner Ctx Val Err Pan).shouldRun = true := hs
  simp only [experimentRunner.select, Bool.false_eq_true, if_false]
  rw [if_pos hs1]
  rfl

theorem select_sampled_out (r : experimentRunner Ctx Val Err Pan) (hd : r.disabled = false)
    (hf : r.force = false) (hs : r.shouldRun = false) :
    r.select = ({ r with experiment := r.experiment.run }, r.controlOnly) := by
  obtain ⟨ex, bs, cfg, tm, d, f, hr, h, ru⟩ := r
  simp only at hd hf
  subst hd hf
  have hs1 : (⟨ex.run, bs, cfg, tm, false, false, hr, h, ru⟩ :
      experimentRunner Ctx Val Err Pan).shouldRun = false := hs
  simp only [experimentRunner.select, Bool.false_eq_true, if_false]
  rw [if_neg (by rw [hs1]; exact Bool.false_ne_true)]
  rfl

/-- The runner with a panicking control is well keyed. -/
theorem faultyRunner_wellKeyed (t d f : Bool) : (faultyRunner t d f).WellKeyed := by
  refine ⟨by simp [faultyRunner, controlKey], ?_⟩
  intro kb hkb
  simp only [faultyRunner, List.mem_cons, List.mem_singleton, List.not_mem_nil, or_false] at hkb
  rcases hkb with rfl | rfl <;> rfl

/-- The sample runner is well keyed, whatever its flags and counters are. -/
theorem sampleRunner_wellKeyed (t d f : Bool) (h ru p : Nat) :
    (sampleRunner t d f h ru p).WellKeyed := by
  refine ⟨by simp [sampleRunner, controlKey], ?_⟩
  intro kb hkb
  simp only [sampleRunner, List.mem_cons, List.mem_singleton, List.not_mem_nil, or_false] at hkb
  rcases hkb with rfl | rfl | rfl <;> rfl

/-! ## Candidates and their panics -/

theorem select_candidates (r : experimentRunner Ctx Val Err Pan) (hd : r.disabled = false)
    (hsel : r.force = true ∨ r.shouldRun = true) : r.select.2 = r.allBehaviours := by
  cases hf : r.force with
  | true => rw [select_forced r hd hf]
  | false =>
    have hs : r.shouldRun = true := by
      rcases hsel with h | h
      · rw [hf] at h; cases h
      · exact h
    rw [select_sampled_in r hd hf hs]

theorem filterMap_congr_mem {α β : Type} (l : List α) (f g : α → Option β)
    (h : ∀ a ∈ l, f a = g a) : l.filterMap f = l.filterMap g := by
  induction l with
  | nil => rfl
  | cons a l ih =>
    rw [List.filterMap_cons, List.filterMap_cons, h a (List.mem_cons_self _ _),
      ih (fun b hb => h b (List.mem_cons_of_mem _ hb))]

theorem escaped_allBehaviours (r : experimentRunner Ctx Val Err Pan) (c : Ctx) (tm : Bool) :
    (deliveries r c tm r.allBehaviours).filterMap (fun d => d.escaped) =
      r.behaviours.filterMap (fun kb => (r.observe c (some kb.2) tm).escaped) := by
  simp only [deliveries, experimentRunner.allBehaviours, List.map_map, List.filterMap_map]
  rfl

/-- Outside test mode nothing escapes from a behaviour that is not the control. -/
theorem observe_escaped_candidate (r : experimentRunner Ctx Val Err Pan) (c : Ctx)
    (b : behaviour Ctx Val Err Pan) (hname : b.name ≠ controlKey) :
    (r.observe c (some b) false).escaped = none := by
  cases h : b.fnc c with
  | returns v e => rw [observe_returns r c b false v e h]
  | panics p => rw [observe_panics_recovered r c b p h hname]

theorem withFnc_keys (r : experimentRunner Ctx Val Err Pan) (k : String)
    (g : Ctx → Outcome Val Err Pan) :
    (r.withFnc k g).behaviours.map Prod.fst = r.behaviours.map Prod.fst := by
  simp only [experimentRunner.withFnc, List.map_map]
  apply List.map_congr_left
  intro kb _
  simp only [Function.comp]
  split <;> rfl

theorem withFnc_wellKeyed (r : experimentRunner Ctx Val Err Pan) (k : String)
    (g : Ctx → Outcome Val Err Pan) (h : r.WellKeyed) : (r.withFnc k g).WellKeyed := by
  refine ⟨by rw [withFnc_keys]; exact h.1, ?_⟩
  intro kb hkb
  simp only [experimentRunner.withFnc, List.mem_map] at hkb
  obtain ⟨kb0, hm0, rfl⟩ := hkb
  split
  · exact h.2 kb0 hm0
  · exact h.2 kb0 hm0

theorem withFnc_mem_of_ne (r : experimentRunner Ctx Val Err Pan) (k : String)
    (g : Ctx → Outcome Val Err Pan) (n : String) (b : behaviour Ctx Val Err Pan)
    (hm : (n, b) ∈ r.behaviours) (hn : n ≠ k) : (n, b) ∈ (r.withFnc k g).behaviours := by
  simp only [experimentRunner.withFnc, List.mem_map]
  exact ⟨(n, b), hm, if_neg hn⟩

theorem withFnc_runContext (background : Ctx) (r : experimentRunner Ctx Val Err Pan)
    (k : String) (g : Ctx → Outcome Val Err Pan) (ctx : Option Ctx) :
    (r.withFnc k g).runContext background ctx = r.runContext background ctx := rfl

theorem withFnc_shouldRun (r : experimentRunner Ctx Val Err Pan) (k : String)
    (g : Ctx → Outcome Val Err Pan) : (r.withFnc k g).shouldRun = r.shouldRun := rfl

/-! ## What an Observation can hold -/

/-- The Observation that `observe` sends for a behaviour is named after it and
holds either what the function returned, with no panic, or nil `Value` and
`Error` and the panic, the latter only outside test mode and not for the
control. -/
theorem observe_sent_cases (r : experimentRunner Ctx Val Err Pan) (ctx : Ctx)
    (b : behaviour Ctx Val Err Pan) (tm : Bool) (ob : Observation Val Err Pan)
    (h : (r.observe ctx (some b) tm).sent = some ob) :
    (∃ v e, b.fnc ctx = Outcome.returns v e ∧
      ob = { Name := b.name, Value := v, Error := e, Panic := none }) ∨
    (∃ p, b.fnc ctx = Outcome.panics p ∧ (b.name = controlKey ∨ tm = true) ∧
      ob = { Name := b.name, Value := none, Error := none, Panic := none }) ∨
    (∃ p, b.fnc ctx = Outcome.panics p ∧ b.name ≠ controlKey ∧ tm = false ∧
      ob = { Name := b.name, Value := none, Error := none, Panic := some p }) := by
  cases hf : b.fnc ctx with
  | returns v e =>
    rw [observe_returns r ctx b tm v e hf] at h
    exact Or.inl ⟨v, e, rfl, (Option.some.inj h).symm⟩
  | panics p =>
    by_cases hc : b.name = controlKey ∨ tm = true
    · rw [observe_panics_escapes r ctx b tm p hf hc] at h
      exact Or.inr (Or.inl ⟨p, rfl, hc, (Option.some.inj h).symm⟩)
    · have hn : b.name ≠ controlKey := fun hn => hc (Or.inl hn)
      have ht : tm = false := by
        cases tm
        · rfl
        · exact absurd (Or.inr rfl) hc
      subst ht
      rw [observe_panics_recovered r ctx b p hf hn] at h
      exact Or.inr (Or.inr ⟨p, rfl, hn, rfl, (Option.some.inj h).symm⟩)

/-- Every entry of the Observations of a call was sent by `observe` for a
behaviour of the selected map. -/
theorem Run_obs_sent (background : Ctx) (tm : Bool) (r : experimentRunner Ctx Val Err Pan)
    (ctx : Option Ctx) (n : String) (ob : Observation Val Err Pan)
    (h : (r.Run background tm ctx).obs n = some ob) :
    ob.Name = n ∧ ∃ kb ∈ r.select.2,
      (r.observe (r.runContext background ctx) kb.2 tm).sent = some ob := by
  rw [Run_obs] at h
  obtain ⟨hn, d, hd, hs⟩ := collect_some _ n ob h
  refine ⟨hn, ?_⟩
  simp only [deliveries, List.mem_map] at hd
  obtain ⟨kb, hkb, rfl⟩ := hd
  exact ⟨kb, hkb, hs⟩

/-- The entries of a selected map are behaviours of the runner. -/
theorem select_mem (r : experimentRunner Ctx Val Err Pan)
    (kb : String × Option (behaviour Ctx Val Err Pan)) (h : kb ∈ r.select.2) :
    kb.2 = none ∨ ∃ b, kb.2 = some b ∧ (kb.1, b) ∈ r.behaviours := by
  rcases select_cases r with hsel | hsel
  · rw [hsel] at h
    simp only [experimentRunner.controlOnly, List.mem_singleton] at h
    subst h
    cases hl : r.behaviours.lookup controlKey with
    | none => exact Or.inl rfl
    | some c => exact Or.inr ⟨c, rfl, mem_of_lookup _ _ _ hl⟩
  · rw [hsel] at h
    simp only [experimentRunner.allBehaviours, List.mem_map] at h
    obtain ⟨kb0, hm, rfl⟩ := h
    exact Or.inr ⟨kb0.2, rfl, hm⟩

/-- In a well-keyed runner the entry under a registered key, when there is one,
is what `observe` sent for the behaviour registered under that key. -/
theorem Run_obs_entry (background : Ctx) (tm : Bool) (r : experimentRunner Ctx Val Err Pan)
    (ctx : Option Ctx) (hkeys : r.WellKeyed) (k : String) (b : behaviour Ctx Val Err Pan)
    (hmem : (k, b) ∈ r.behaviours) (ob : Observation Val Err Pan)
    (h : (r.Run background tm ctx).obs k = some ob) :
    (r.observe (r.runContext background ctx) (some b) tm).sent = some ob := by
  obtain ⟨hn, kb, hkb, hs⟩ := Run_obs_sent background tm r ctx k ob h
  rcases select_mem r kb hkb with hnone | ⟨b', hb', hm'⟩
  · rw [hnone] at hs
    simp [experimentRunner.observe] at hs
  · rw [hb'] at hs
    obtain ⟨ob2, hs2, hn2⟩ := observe_sends r (r.runContext background ctx) b' tm
    rw [hs2] at hs
    cases hs
    have hname : b'.name = b.name := by
      rw [← hn2, hn, hkeys.2 (k, b) hmem]
    have : (kb.1, b') = (k, b) := hkeys.eq_of_name_eq hm' hmem hname
    cases this
    exact hs2

/-- The runner whose behaviours all return is well keyed. -/
theorem steadyRunner_wellKeyed (t d f : Bool) : (steadyRunner t d f).WellKeyed := by
  refine ⟨by simp [steadyRunner, controlKey], ?_⟩
  intro kb hkb
  simp only [steadyRunner, List.mem_cons, List.mem_singleton, List.not_mem_nil, or_false] at hkb
  rcases hkb with rfl | rfl <;> rfl

/-! ## The Experiment State along a sequence of calls -/

/-- One call of `Run` leaves the Experiment State as it was, or applies `run()`,
or applies `run()` and then `hit()`. -/
theorem select_experiment (r : experimentRunner Ctx Val Err Pan) :
    r.select.1.experiment = r.experiment ∨ r.select.1.experiment = r.experiment.run ∨
      r.select.1.experiment = r.experiment.run.hit := by
  cases hd : r.disabled with
  | true => rw [select_disabled r hd]; exact Or.inl rfl
  | false =>
    cases hf : r.force with
    | true => rw [select_forced r hd hf]; exact Or.inl rfl
    | false =>
      cases hs : r.shouldRun with
      | true => rw [select_sampled_in r hd hf hs]; exact Or.inr (Or.inr rfl)
      | false => rw [select_sampled_out r hd hf hs]; exact Or.inr (Or.inl rfl)

theorem apply_keeps_hits_le_runs (background : Ctx) (e : Experiment)
    (c : Invocation Ctx Val Err Pan) (h : e.hits ≤ e.runs) :
    (c.apply background e).hits ≤ (c.apply background e).runs := by
  unfold Invocation.apply
  rw [Run_runner]
  rcases select_experiment ({ c.runner with experiment := e } :
    experimentRunner Ctx Val Err Pan) with h1 | h1 | h1 <;> rw [h1]
  · exact h
  · exact Nat.le_succ_of_le h
  · exact Nat.succ_le_succ h

theorem runAll_keeps_hits_le_runs (background : Ctx) (calls : List (Invocation Ctx Val Err Pan))
    (e : Experiment) (h : e.hits ≤ e.runs) :
    (runAll background calls e).hits ≤ (runAll background calls e).runs := by
  induction calls generalizing e with
  | nil => exact h
  | cons c cs ih => exact ih _ (apply_keeps_hits_le_runs background e c h)

/-! ## The fields that `shouldRun` reads -/

theorem select_frame (r : experimentRunner Ctx Val Err Pan) :
    r.select.1.hits = r.hits ∧ r.select.1.runs = r.runs ∧
      r.select.1.testMode = r.testMode ∧ r.select.1.config = r.config ∧
      r.select.1.behaviours = r.behaviours := by
  cases hd : r.disabled with
  | true => rw [select_disabled r hd]; exact ⟨rfl, rfl, rfl, rfl, rfl⟩
  | false =>
    cases hf : r.force with
    | true => rw [select_forced r hd hf]; exact ⟨rfl, rfl, rfl, rfl, rfl⟩
    | false =>
      cases hs : r.shouldRun with
      | true => rw [select_sampled_in r hd hf hs]; exact ⟨rfl, rfl, rfl, rfl, rfl⟩
      | false => rw [select_sampled_out r hd hf hs]; exact ⟨rfl, rfl, rfl, rfl, rfl⟩

theorem perform_frame (background : Ctx) (r : experimentRunner Ctx Val Err Pan)
    (c : Call Ctx) :
    (r.perform background c).hits = r.hits ∧ (r.perform background c).runs = r.runs ∧
      (r.perform background c).testMode = r.testMode ∧
      (r.perform background c).config = r.config := by
  cases c with
  | Run tm ctx =>
    obtain ⟨h1, h2, h3, h4, _⟩ := select_frame r
    exact ⟨h1, h2, h3, h4⟩
  | Disable d => exact ⟨rfl, rfl, rfl, rfl⟩
  | Force f => exact ⟨rfl, rfl, rfl, rfl⟩

theorem performAll_frame (background : Ctx) (r : experimentRunner Ctx Val Err Pan)
    (calls : List (Call Ctx)) :
    (r.performAll background calls).hits = r.hits ∧
      (r.performAll background calls).runs = r.runs ∧
      (r.performAll background calls).testMode = r.testMode ∧
      (r.performAll background calls).config = r.config := by
  induction calls generalizing r with
  | nil => exact ⟨rfl, rfl, rfl, rfl⟩
  | cons c cs ih =>
    obtain ⟨h1, h2, h3, h4⟩ := ih (r.perform background c)
    obtain ⟨g1, g2, g3, g4⟩ := perform_frame background r c
    exact ⟨h1.trans g1, h2.trans g2, h3.trans g3, h4.trans g4⟩

/-- The sampling decision is a function of four fields of the runner. -/
theorem shouldRun_congr (r r' : experimentRunner Ctx Val Err Pan) (h1 : r'.hits = r.hits)
    (h2 : r'.runs = r.runs) (h3 : r'.testMode = r.testMode)
    (h4 : r'.config.Percentage = r.config.Percentage) : r'.shouldRun = r.shouldRun := by
  simp only [experimentRunner.shouldRun, h1, h2, h3, h4]

/-! ## Options -/

/-- A field that every option of a list leaves alone has, after `newOptions`,
the value it has in the options the fold starts from. -/
theorem foldl_options_field {α : Type} (π : options Ctx Val Err Pan → α)
    (ops : List (OptionFn Ctx Val Err Pan)) (init : options Ctx Val Err Pan)
    (h : ∀ o ∈ ops, ∀ x, π (o x) = π x) :
    π (ops.foldl (fun opts o => o opts) init) = π init := by
  induction ops generalizing init with
  | nil => rfl
  | cons o ops ih =>
    rw [List.foldl_cons, ih _ (fun o' ho' => h o' (List.mem_cons_of_mem _ ho')),
      h o (List.mem_cons_self _ _)]

theorem newOptions_append (background : Ctx) (ops rest : List (OptionFn Ctx Val Err Pan)) :
    newOptions background (ops ++ rest) =
      rest.foldl (fun opts o => o opts) (newOptions background ops) := by
  simp only [newOptions, List.foldl_append]

/-- The value of `float64(10)`. -/
theorem F64.ofInt_ten : F64.toRat (F64.ofInt 10) = some 10 := by
  have h : F64.ofInt 10 = F64.fin false 5629499534213120 (-49) := by decide
  rw [h]
  simp only [F64.toRat]
  norm_num

/-! ## The sampling decision on counts -/

theorem F32.ofNat_zero : F32.ofNat 0 = F32.fin false 0 0 := rfl

theorem F32.scaled_zero (s : Bool) (e b : Int) : F32.scaled s 0 e b = 0 := by
  cases s <;> simp [F32.scaled]

/-- A finite value is `== 0` exactly when its significand is zero. -/
theorem F32.eq_zero_iff (s : Bool) (m : Nat) (e : Int) :
    F32.eq (F32.fin s m e) (F32.ofNat 0) = true ↔ m = 0 := by
  rw [F32.ofNat_zero]
  simp only [F32.eq, decide_eq_true_eq, F32.scaled_zero]
  have hpos : 0 < 2 ^ (e - min e 0).toNat := by positivity
  cases s
  · simp only [F32.scaled, Bool.false_eq_true, if_false]
    constructor
    · intro h
      have h' : m * 2 ^ (e - min e 0).toNat = 0 := by exact_mod_cast h
      rcases Nat.mul_eq_zero.mp h' with h0 | h0
      · exact h0
      · omega
    · intro h; subst h; simp
  · simp only [F32.scaled, if_true, neg_eq_zero]
    constructor
    · intro h
      have h' : m * 2 ^ (e - min e 0).toNat = 0 := by exact_mod_cast h
      rcases Nat.mul_eq_zero.mp h' with h0 | h0
      · exact h0
      · omega
    · intro h; subst h; simp

/-- A value that is `== 0` is a finite value with significand zero. -/
theorem F32.eq_zero_cases (x : F32) (h : F32.eq x (F32.ofNat 0) = true) :
    ∃ s e, x = F32.fin s 0 e := by
  cases x with
  | nan => simp [F32.eq] at h
  | inf t => simp [F32.eq, F32.ofNat_zero] at h
  | fin s m e =>
    have := (F32.eq_zero_iff s m e).mp h
    subst this
    exact ⟨s, e, rfl⟩

/-- A positive count below `2^24` is not `== 0` as a `float32`. -/
theorem F32.ofNat_ne_zero (n : Nat) (hn : 0 < n) (hn24 : n < 2 ^ 24) :
    F32.eq (F32.ofNat n) (F32.ofNat 0) = false := by
  obtain ⟨m, e, hof, hv⟩ := F32.ofNat_exact n hn24
  rw [hof, Bool.eq_false_iff, Ne, F32.eq_zero_iff]
  intro h0
  rw [h0] at hv
  simp only [Nat.cast_zero, zero_mul] at hv
  have : (0 : ℚ) < n := by exact_mod_cast hn
  linarith

/-- The hit rate of a zero `hits` over a `runs` that is not zero is a zero. -/
theorem F32.rate_of_zero_hits (s : Bool) (e : Int) (runs : F32)
    (hruns : F32.le (F32.ofNat 0) runs = true)
    (hne : F32.eq runs (F32.ofNat 0) = false) :
    ∃ s', F32.mul (F32.div (F32.fin s 0 e) runs) (F32.ofNat 100) = F32.fin s' 0 0 := by
  have hdiv : ∃ s', F32.div (F32.fin s 0 e) runs = F32.fin s' 0 0 := by
    cases runs with
    | nan => simp [F32.le, F32.ofNat_zero] at hruns
    | inf t => exact ⟨xor s t, rfl⟩
    | fin t n f =>
      have hn : n ≠ 0 := by
        intro h0
        rw [(F32.eq_zero_iff t n f).mpr h0] at hne
        cases hne
      refine ⟨xor s t, ?_⟩
      simp [F32.div, hn, F32.round]
  obtain ⟨s', hs'⟩ := hdiv
  refine ⟨xor s' false, ?_⟩
  rw [hs', F32.ofNat_hundred]
  simp [F32.mul, F32.round]

/-- A zero is `<=` whatever zero is `<=`. -/
theorem F32.le_of_zero (s : Bool) (p : F32) (hp : F32.le (F32.ofNat 0) p = true) :
    F32.le (F32.fin s 0 0) p = true := by
  rw [F32.ofNat_zero] at hp
  cases p with
  | nan => simp [F32.le] at hp
  | inf t => simpa [F32.le] using hp
  | fin t n f =>
    simp only [F32.le, F32.scaled_zero, decide_eq_true_eq] at hp ⊢
    exact hp

/-- The sampling decision of the sample runner outside test mode, on counts. -/
theorem sampleRunner_shouldRun (h r p : Nat) (hr : 0 < r) (hr24 : r < 2 ^ 24) :
    (sampleRunner false false false h r p).shouldRun =
      F32.le (F32.mul (F32.div (F32.ofNat h) (F32.ofNat r)) (F32.ofNat 100)) (F32.ofNat p) := by
  have hne := F32.ofNat_ne_zero r hr hr24
  simp only [experimentRunner.shouldRun, sampleRunner, hne, Bool.false_eq_true, if_false]
  by_cases hb : F32.le (F32.mul (F32.div (F32.ofNat h) (F32.ofNat r)) (F32.ofNat 100))
      (F32.ofNat p) = true
  · rw [if_pos hb, hb]
  · rw [if_neg hb]
    exact (Bool.eq_false_iff.mpr hb).symm

/-- A call that is neither disabled nor forced records the run, and records a
hit when `shouldRun` says so. -/
theorem select_experiment_sampled (r : experimentRunner Ctx Val Err Pan)
    (hd : r.disabled = false) (hf : r.force = false) :
    r.select.1.experiment =
      if r.shouldRun = true then r.experiment.run.hit else r.experiment.run := by
  by_cases hs : r.shouldRun = true
  · rw [if_pos hs, select_sampled_in r hd hf hs]
  · rw [if_neg hs, select_sampled_out r hd hf (Bool.eq_false_iff.mpr hs)]

theorem sampledCall_eq (p : Nat) (e : Experiment) :
    sampledCall p e =
      if (sampleRunner false false false e.hits (e.runs + 1) p).shouldRun = true then e.run.hit
      else e.run := by
  unfold sampledCall
  rw [Run_runner]
  exact select_experiment_sampled
    ({ sampleRunner false false false e.hits e.run.runs p with experiment := e } :
      experimentRunner Nat Nat String String) rfl rfl

/-- One sampled call keeps the bound, as long as the counters are in the range
in which `float32` agrees with exact arithmetic on rates above the percentage. -/
theorem sampledCall_keeps_bound (p : Nat) (e : Experiment) (hle : e.hits ≤ e.runs)
    (hb : 100 * e.hits ≤ p * e.runs + 100) (h24 : e.runs + 1 < 2 ^ 24)
    (h23 : p * (e.runs + 1) < 2 ^ 23) :
    (sampledCall p e).runs = e.runs + 1 ∧ (sampledCall p e).hits ≤ e.runs + 1 ∧
      100 * (sampledCall p e).hits ≤ p * (e.runs + 1) + 100 := by
  rw [sampledCall_eq]
  have hmul : p * (e.runs + 1) = p * e.runs + p := by ring
  by_cases hs : (sampleRunner false false false e.hits (e.runs + 1) p).shouldRun = true
  · rw [if_pos hs]
    have hnot : ¬ p * (e.runs + 1) < 100 * e.hits := by
      intro habove
      have hf := F32.rate_above e.hits (e.runs + 1) p (Nat.succ_pos _) (by omega) h24 h23 habove
      rw [sampleRunner_shouldRun _ _ _ (Nat.succ_pos _) h24, hf] at hs
      cases hs
    refine ⟨rfl, ?_, ?_⟩
    · show e.hits + 1 ≤ e.runs + 1
      omega
    · show 100 * (e.hits + 1) ≤ p * (e.runs + 1) + 100
      omega
  · rw [if_neg hs]
    refine ⟨rfl, ?_, ?_⟩
    · show e.hits ≤ e.runs + 1
      omega
    · show 100 * e.hits ≤ p * (e.runs + 1) + 100
      omega

theorem sampledLoop_bound (p : Nat) : ∀ n : Nat, n < 2 ^ 24 → p * n < 2 ^ 23 →
    (sampledLoop p n).runs = n ∧ (sampledLoop p n).hits ≤ n ∧
      100 * (sampledLoop p n).hits ≤ p * n + 100
  | 0, _, _ => ⟨rfl, Nat.le_refl 0, by show 100 * 0 ≤ p * 0 + 100; omega⟩
  | n + 1, h24, h23 => by
    have hmul : p * (n + 1) = p * n + p := by ring
    obtain ⟨h1, h2, h3⟩ := sampledLoop_bound p n (by omega) (by omega)
    have := sampledCall_keeps_bound p (sampledLoop p n) (by rw [h1]; exact h2)
      (by rw [h1]; exact h3) (by rw [h1]; exact h24) (by rw [h1]; exact h23)
    rw [h1] at this
    exact this

end Lemmas

section Properties

variable {Ctx Val Err Pan : Type}

/-! ## The control is always observed -/

/-- C1: whatever the disabled flag, the force flag, test mode, the counters and
the percentage are, the Observations that `Run` assembles hold an entry under
the name of the control, for every runner that registers a control behaviour
(under its own name). The entry is there whether or not the control returns
normally, since the deferred function sends the Observation in every case. -/
theorem run_contains_control (background : Ctx) (TestMode : Bool)
    (r : experimentRunner Ctx Val Err Pan) (ctx : Option Ctx)
    (c : behaviour Ctx Val Err Pan)
    (hreg : r.behaviours.lookup controlKey = some c) (hname : c.name = controlKey) :
    ∃ ob, (r.Run background TestMode ctx).obs controlKey = some ob ∧ ob.Name = controlKey := by
  rw [Run_obs]
  rcases select_cases r with hsel | hsel
  · rw [hsel]
    obtain ⟨ob, _, hn, hcol⟩ := collect_controlOnly r (r.runContext background ctx) TestMode c hreg
    refine ⟨ob, ?_, hn.trans hname⟩
    rw [hcol]
    exact if_pos hname.symm
  · rw [hsel]
    obtain ⟨ob, hs, hn⟩ := observe_sends r (r.runContext background ctx) c TestMode
    have hmem : ∃ d ∈ deliveries r (r.runContext background ctx) TestMode r.allBehaviours,
        d.sent = some ob := by
      refine ⟨r.observe (r.runContext background ctx) (some c) TestMode, ?_, hs⟩
      simp only [deliveries, experimentRunner.allBehaviours, List.map_map, List.mem_map]
      exact ⟨(controlKey, c), mem_of_lookup _ _ _ hreg, rfl⟩
    obtain ⟨ob', hob', hn'⟩ := collect_of_sender _ ob hmem
    rw [hn, hname] at hob' hn'
    exact ⟨ob', hob', hn'⟩

theorem run_contains_control_witness :
    (sampleRunner false false false 3 5 60).behaviours.lookup controlKey = some sampleControl ∧
    sampleControl.name = controlKey ∧
    ∃ ob, ((sampleRunner false false false 3 5 60).Run 0 true none).obs controlKey = some ob ∧
      ob.Name = controlKey :=
  ⟨rfl, rfl, run_contains_control 0 true (sampleRunner false false false 3 5 60) none
    sampleControl rfl rfl⟩

/-- C2: when the control returns normally, its Observation carries exactly the
value and the error that the control function returns on the context left by
the before-filters, and no captured panic; hence it is the same for every
runner with that control and those filters, whatever candidates are registered,
whatever they do, and whatever the flags, the counters and the test mode are. -/
theorem control_observation_is_direct_call (background : Ctx) (TestMode : Bool)
    (r : experimentRunner Ctx Val Err Pan) (ctx : Option Ctx)
    (c : behaviour Ctx Val Err Pan) (v : Option Val) (e : Option Err)
    (hkeys : r.WellKeyed) (hreg : r.behaviours.lookup controlKey = some c)
    (hret : c.fnc (r.runContext background ctx) = Outcome.returns v e) :
    (r.Run background TestMode ctx).obs controlKey =
        some { Name := controlKey, Value := v, Error := e, Panic := none } ∧
      ∀ (r' : experimentRunner Ctx Val Err Pan) (TestMode' : Bool), r'.WellKeyed →
        r'.behaviours.lookup controlKey = some c →
        r'.config.BeforeFilters = r.config.BeforeFilters →
        (r'.Run background TestMode' ctx).obs controlKey =
          (r.Run background TestMode ctx).obs controlKey := by
  have key : ∀ (r : experimentRunner Ctx Val Err Pan) (TestMode : Bool), r.WellKeyed →
      r.behaviours.lookup controlKey = some c →
      c.fnc (r.runContext background ctx) = Outcome.returns v e →
      (r.Run background TestMode ctx).obs controlKey =
        some { Name := controlKey, Value := v, Error := e, Panic := none } := by
    intro r TestMode hkeys hreg hret
    have hmem := mem_of_lookup _ _ _ hreg
    have hname : c.name = controlKey := hkeys.2 _ hmem
    rw [Run_obs]
    rcases select_cases r with hsel | hsel
    · rw [hsel]
      obtain ⟨ob, hs, _, hcol⟩ :=
        collect_controlOnly r (r.runContext background ctx) TestMode c hreg
      rw [observe_returns r _ c TestMode v e hret] at hs
      rw [hcol]
      refine (if_pos hname.symm).trans ?_
      rw [← hname]
      exact hs.symm
    · rw [hsel, collect_allBehaviours r _ TestMode hkeys controlKey c hmem,
        observe_returns r _ c TestMode v e hret, hname]
  refine ⟨key r TestMode hkeys hreg hret, ?_⟩
  intro r' TestMode' hkeys' hreg' hfil
  have hctx : r'.runContext background ctx = r.runContext background ctx := by
    simp only [experimentRunner.runContext, hfil]
  rw [key r TestMode hkeys hreg hret, key r' TestMode' hkeys' hreg' (by rw [hctx]; exact hret)]

theorem control_observation_is_direct_call_witness :
    (sampleRunner false false false 1 2 50).WellKeyed ∧
    (sampleRunner false false false 1 2 50).behaviours.lookup controlKey = some sampleControl ∧
    sampleControl.fnc ((sampleRunner false false false 1 2 50).runContext 0 none) =
      Outcome.returns (some 7) none ∧
    (((sampleRunner false false false 1 2 50).Run 0 false none).obs controlKey =
        some { Name := controlKey, Value := some 7, Error := none, Panic := none } ∧
      ∀ (r' : experimentRunner Nat Nat String String) (TestMode' : Bool), r'.WellKeyed →
        r'.behaviours.lookup controlKey = some sampleControl →
        r'.config.BeforeFilters = (sampleRunner false false false 1 2 50).config.BeforeFilters →
        (r'.Run 0 TestMode' none).obs controlKey =
          ((sampleRunner false false false 1 2 50).Run 0 false none).obs controlKey) :=
  ⟨sampleRunner_wellKeyed _ _ _ _ _ _, rfl, rfl,
    control_observation_is_direct_call 0 false (sampleRunner false false false 1 2 50) none
      sampleControl (some 7) none (sampleRunner_wellKeyed _ _ _ _ _ _) rfl rfl⟩

/-! ## The sampling decision -/

/-- C3, counterexample: with 3 hits in 5 runs and a percentage of 60 the hit
rate is exactly 60, which is `≤ 60`, yet `shouldRun` returns false. In `float32`
the quotient `3 / 5` is `10066330 * 2^-24` (the nearer of the two neighbours of
`3/5` with 24 significant bits), and its product with `100` is
`15728641 * 2^-18` (the nearer of the two neighbours of that product, the other
being `15728640 * 2^-18 = 60`), which is above `60`. -/
theorem shouldRun_exact_rate_counterexample :
    ((3 : ℚ) / 5 * 100 ≤ 60) ∧ exactRateRule 3 5 60 = true ∧
      (60 ≤ 100) ∧ (0 < 5) ∧
      (sampleRunner false false false 3 5 60).testMode = false ∧
      ((10066329 : ℚ) / 2 ^ 24 < 3 / 5 ∧ (3 : ℚ) / 5 < 10066330 / 2 ^ 24 ∧
        (10066330 : ℚ) / 2 ^ 24 - 3 / 5 < 3 / 5 - 10066329 / 2 ^ 24) ∧
      F32.div (F32.ofNat 3) (F32.ofNat 5) = F32.fin false 10066330 (-24) ∧
      ((15728640 : ℚ) / 2 ^ 18 = 60 ∧ (60 : ℚ) < 10066330 / 2 ^ 24 * 100 ∧
        (10066330 : ℚ) / 2 ^ 24 * 100 < 15728641 / 2 ^ 18 ∧
        (15728641 : ℚ) / 2 ^ 18 - 10066330 / 2 ^ 24 * 100 < 10066330 / 2 ^ 24 * 100 - 60) ∧
      F32.mul (F32.div (F32.ofNat 3) (F32.ofNat 5)) (F32.ofNat 100) =
        F32.fin false 15728641 (-18) ∧
      (sampleRunner false false false 3 5 60).shouldRun = false := by
  refine ⟨by norm_num, ?_, by decide, by decide, rfl, ⟨by norm_num, by norm_num, by norm_num⟩,
    by decide, ⟨by norm_num, by norm_num, by norm_num, by norm_num⟩, by decide, by decide⟩
  simp only [exactRateRule]
  norm_num

/-- C3, as amended: outside test mode `shouldRun` returns true when `runs == 0`,
and otherwise returns true exactly when the `float32` value of
`(hits / runs) * 100`, quotient and product each rounded to `float32`, is
`<=` the percentage, and false otherwise; the two invocations of the spec's
example (percentage 50, with `hits = 0, runs = 1` and with `hits = 1, runs = 2`)
both give true. -/
theorem shouldRun_float_rate (r : experimentRunner Ctx Val Err Pan)
    (htm : r.testMode = false) :
    (F32.eq r.runs (F32.ofNat 0) = true → r.shouldRun = true) ∧
    (F32.eq r.runs (F32.ofNat 0) = false →
      (r.shouldRun = true ↔
        F32.le (F32.mul (F32.div r.hits r.runs) (F32.ofNat 100)) r.config.Percentage = true) ∧
      (r.shouldRun = false ↔
        F32.le (F32.mul (F32.div r.hits r.runs) (F32.ofNat 100)) r.config.Percentage = false)) ∧
    (sampleRunner false false false 0 1 50).shouldRun = true ∧
    (sampleRunner false false false 1 2 50).shouldRun = true := by
  refine ⟨?_, ?_, by decide, by decide⟩
  · intro h0
    simp [experimentRunner.shouldRun, htm, h0]
  · intro h0
    cases hle : F32.le (F32.mul (F32.div r.hits r.runs) (F32.ofNat 100)) r.config.Percentage <;>
      simp [experimentRunner.shouldRun, htm, h0, hle]

theorem shouldRun_float_rate_witness :
    (sampleRunner false false false 1 2 50).testMode = false ∧
    ((F32.eq (sampleRunner false false false 1 2 50).runs (F32.ofNat 0) = true →
        (sampleRunner false false false 1 2 50).shouldRun = true) ∧
      (F32.eq (sampleRunner false false false 1 2 50).runs (F32.ofNat 0) = false →
        ((sampleRunner false false false 1 2 50).shouldRun = true ↔
          F32.le (F32.mul (F32.div (sampleRunner false false false 1 2 50).hits
            (sampleRunner false false false 1 2 50).runs) (F32.ofNat 100))
            (sampleRunner false false false 1 2 50).config.Percentage = true) ∧
        ((sampleRunner false false false 1 2 50).shouldRun = false ↔
          F32.le (F32.mul (F32.div (sampleRunner false false false 1 2 50).hits
            (sampleRunner false false false 1 2 50).runs) (F32.ofNat 100))
            (sampleRunner false false false 1 2 50).config.Percentage = false)) ∧
      (sampleRunner false false false 0 1 50).shouldRun = true ∧
      (sampleRunner false false false 1 2 50).shouldRun = true) :=
  ⟨rfl, shouldRun_float_rate (sampleRunner false false false 1 2 50) rfl⟩

/-! ## The modes of `Run` -/

/-- C4: a disabled runner, whatever its force flag, test mode and counters are,
assembles Observations that hold the entry of the control and no other, and the
call leaves the hits and runs counters of the experiment and the `hasRun` flag
as they were: `Disable` overrules `Force`. -/
theorem run_disabled (background : Ctx) (TestMode : Bool)
    (r : experimentRunner Ctx Val Err Pan) (ctx : Option Ctx) (c : behaviour Ctx Val Err Pan)
    (hd : r.disabled = true)
    (hreg : r.behaviours.lookup controlKey = some c) (hname : c.name = controlKey) :
    (∃ ob, (r.Run background TestMode ctx).obs controlKey = some ob) ∧
    (∀ n, n ≠ controlKey → (r.Run background TestMode ctx).obs n = none) ∧
    (r.Run background TestMode ctx).runner.experiment.hits = r.experiment.hits ∧
    (r.Run background TestMode ctx).runner.experiment.runs = r.experiment.runs ∧
    (r.Run background TestMode ctx).runner.hasRun = r.hasRun ∧
    (r.Run background TestMode ctx).obs =
      ((r.Force (!r.force)).Run background TestMode ctx).obs := by
  have hd' : (r.Force (!r.force)).disabled = true := hd
  obtain ⟨ob, _, _, hcol⟩ := collect_controlOnly r (r.runContext background ctx) TestMode c hreg
  have hobs : (r.Run background TestMode ctx).obs =
      fun n => if n = c.name then some ob else none := by
    rw [Run_obs, select_disabled r hd]; exact hcol
  refine ⟨⟨ob, ?_⟩, ?_, ?_, ?_, ?_, ?_⟩
  · rw [hobs]; exact if_pos hname.symm
  · intro n hn
    rw [hobs]
    exact if_neg (fun h => hn (h.trans hname))
  · rw [Run_runner, select_disabled r hd]
  · rw [Run_runner, select_disabled r hd]
  · rw [Run_runner, select_disabled r hd]
  · rw [Run_obs, Run_obs, select_disabled r hd, select_disabled _ hd']
    rfl

theorem run_disabled_witness :
    (sampleRunner false true true 0 0 10).disabled = true ∧
    (sampleRunner false true true 0 0 10).behaviours.lookup controlKey = some sampleControl ∧
    sampleControl.name = controlKey ∧
    (∃ ob, ((sampleRunner false true true 0 0 10).Run 0 false none).obs controlKey = some ob) ∧
    (∀ n, n ≠ controlKey →
      ((sampleRunner false true true 0 0 10).Run 0 false none).obs n = none) ∧
    ((sampleRunner false true true 0 0 10).Run 0 false none).runner.experiment.hits =
      (sampleRunner false true true 0 0 10).experiment.hits ∧
    ((sampleRunner false true true 0 0 10).Run 0 false none).runner.experiment.runs =
      (sampleRunner false true true 0 0 10).experiment.runs ∧
    ((sampleRunner false true true 0 0 10).Run 0 false none).runner.hasRun =
      (sampleRunner false true true 0 0 10).hasRun ∧
    ((sampleRunner false true true 0 0 10).Run 0 false none).obs =
      (((sampleRunner false true true 0 0 10).Force
        (!(sampleRunner false true true 0 0 10).force)).Run 0 false none).obs :=
  ⟨rfl, rfl, rfl,
    run_disabled 0 false (sampleRunner false true true 0 0 10) none sampleControl rfl rfl rfl⟩

/-- C5: a runner that is forced and not disabled assembles, for every registered
behaviour, the Observation that `observe` sends for it; the call leaves the
runner and the hits and runs counters of the experiment as they were, so the
sampling decision after the call is the one before it; and the sampling
decision is not consulted: every forced runner with the same behaviours and
filters assembles the same Observations, whatever its hits, runs, test mode
and percentage are. -/
theorem run_forced (background : Ctx) (TestMode : Bool)
    (r : experimentRunner Ctx Val Err Pan) (ctx : Option Ctx)
    (hd : r.disabled = false) (hf : r.force = true) (hkeys : r.WellKeyed) :
    (∀ k b, (k, b) ∈ r.behaviours →
      ∃ ob, (r.Run background TestMode ctx).obs k = some ob ∧ ob.Name = k ∧
        (r.observe (r.runContext background ctx) (some b) TestMode).sent = some ob) ∧
    (r.Run background TestMode ctx).runner.experiment.hits = r.experiment.hits ∧
    (r.Run background TestMode ctx).runner.experiment.runs = r.experiment.runs ∧
    (r.Run background TestMode ctx).runner.shouldRun = r.shouldRun ∧
    (∀ r' : experimentRunner Ctx Val Err Pan, r'.disabled = false → r'.force = true →
      r'.behaviours = r.behaviours → r'.config.BeforeFilters = r.config.BeforeFilters →
      (r'.Run background TestMode ctx).obs = (r.Run background TestMode ctx).obs) := by
  refine ⟨?_, ?_, ?_, ?_, ?_⟩
  · intro k b hmem
    obtain ⟨ob, hs, hn⟩ := observe_sends r (r.runContext background ctx) b TestMode
    refine ⟨ob, ?_, hn.trans (hkeys.2 (k, b) hmem), hs⟩
    rw [Run_obs, select_forced r hd hf, collect_allBehaviours r _ TestMode hkeys k b hmem, hs]
  · rw [Run_runner, select_forced r hd hf]
  · rw [Run_runner, select_forced r hd hf]
  · rw [Run_runner, select_forced r hd hf]
  · intro r' hd' hf' hb hfil
    rw [Run_obs, Run_obs, select_forced r hd hf, select_forced r' hd' hf']
    simp only [experimentRunner.runContext, experimentRunner.allBehaviours, hb, hfil]
    rfl

theorem run_forced_witness :
    (sampleRunner false false true 3 5 0).disabled = false ∧
    (sampleRunner false false true 3 5 0).force = true ∧
    (sampleRunner false false true 3 5 0).WellKeyed ∧
    ((∀ k b, (k, b) ∈ (sampleRunner false false true 3 5 0).behaviours →
      ∃ ob, ((sampleRunner false false true 3 5 0).Run 0 false none).obs k = some ob ∧
        ob.Name = k ∧
        ((sampleRunner false false true 3 5 0).observe
          ((sampleRunner false false true 3 5 0).runContext 0 none) (some b) false).sent =
          some ob) ∧
    ((sampleRunner false false true 3 5 0).Run 0 false none).runner.experiment.hits =
      (sampleRunner false false true 3 5 0).experiment.hits ∧
    ((sampleRunner false false true 3 5 0).Run 0 false none).runner.experiment.runs =
      (sampleRunner false false true 3 5 0).experiment.runs ∧
    ((sampleRunner false false true 3 5 0).Run 0 false none).runner.shouldRun =
      (sampleRunner false false true 3 5 0).shouldRun ∧
    (∀ r' : experimentRunner Nat Nat String String, r'.disabled = false → r'.force = true →
      r'.behaviours = (sampleRunner false false true 3 5 0).behaviours →
      r'.config.BeforeFilters = (sampleRunner false false true 3 5 0).config.BeforeFilters →
      (r'.Run 0 false none).obs = ((sampleRunner false false true 3 5 0).Run 0 false none).obs)) :=
  ⟨rfl, rfl, sampleRunner_wellKeyed _ _ _ _ _ _,
    run_forced 0 false (sampleRunner false false true 3 5 0) none rfl rfl
      (sampleRunner_wellKeyed _ _ _ _ _ _)⟩

/-- C6: a runner that is neither disabled nor forced and whose `shouldRun`
returns true assembles, for every registered behaviour, the Observation that
`observe` sends for it; the call applies `run()` and then `hit()` to the
experiment, once each, which increments its runs counter and its hits counter
by exactly 1 each, and `HasRun()` is true after it. -/
theorem run_sampled_in (background : Ctx) (TestMode : Bool)
    (r : experimentRunner Ctx Val Err Pan) (ctx : Option Ctx)
    (hd : r.disabled = false) (hf : r.force = false) (hs : r.shouldRun = true)
    (hkeys : r.WellKeyed) :
    (∀ k b, (k, b) ∈ r.behaviours →
      ∃ ob, (r.Run background TestMode ctx).obs k = some ob ∧ ob.Name = k ∧
        (r.observe (r.runContext background ctx) (some b) TestMode).sent = some ob) ∧
    (r.Run background TestMode ctx).runner.experiment = r.experiment.run.hit ∧
    (r.Run background TestMode ctx).runner.experiment.runs = r.experiment.runs + 1 ∧
    (r.Run background TestMode ctx).runner.experiment.hits = r.experiment.hits + 1 ∧
    (r.Run background TestMode ctx).runner.HasRun = true := by
  refine ⟨?_, ?_, ?_, ?_, ?_⟩
  · intro k b hmem
    obtain ⟨ob, hsent, hn⟩ := observe_sends r (r.runContext background ctx) b TestMode
    refine ⟨ob, ?_, hn.trans (hkeys.2 (k, b) hmem), hsent⟩
    rw [Run_obs, select_sampled_in r hd hf hs,
      collect_allBehaviours r _ TestMode hkeys k b hmem, hsent]
  · rw [Run_runner, select_sampled_in r hd hf hs]
  · rw [Run_runner, select_sampled_in r hd hf hs]; rfl
  · rw [Run_runner, select_sampled_in r hd hf hs]; rfl
  · rw [Run_runner, select_sampled_in r hd hf hs]; rfl

theorem run_sampled_in_witness :
    (sampleRunner false false false 1 2 50).disabled = false ∧
    (sampleRunner false false false 1 2 50).force = false ∧
    (sampleRunner false false false 1 2 50).shouldRun = true ∧
    (sampleRunner false false false 1 2 50).WellKeyed ∧
    ((∀ k b, (k, b) ∈ (sampleRunner false false false 1 2 50).behaviours →
      ∃ ob, ((sampleRunner false false false 1 2 50).Run 0 false none).obs k = some ob ∧
        ob.Name = k ∧
        ((sampleRunner false false false 1 2 50).observe
          ((sampleRunner false false false 1 2 50).runContext 0 none) (some b) false).sent =
          some ob) ∧
    ((sampleRunner false false false 1 2 50).Run 0 false none).runner.experiment =
      (sampleRunner false false false 1 2 50).experiment.run.hit ∧
    ((sampleRunner false false false 1 2 50).Run 0 false none).runner.experiment.runs =
      (sampleRunner false false false 1 2 50).experiment.runs + 1 ∧
    ((sampleRunner false false false 1 2 50).Run 0 false none).runner.experiment.hits =
      (sampleRunner false false false 1 2 50).experiment.hits + 1 ∧
    ((sampleRunner false false false 1 2 50).Run 0 false none).runner.HasRun = true) :=
  ⟨rfl, rfl, by decide, sampleRunner_wellKeyed _ _ _ _ _ _,
    run_sampled_in 0 false (sampleRunner false false false 1 2 50) none rfl rfl (by decide)
      (sampleRunner_wellKeyed _ _ _ _ _ _)⟩

/-- C7: a runner that is neither disabled nor forced and whose `shouldRun`
returns false assembles Observations that hold the entry of the control and no
other; the call applies `run()` to the experiment once, which increments its
runs counter by exactly 1, and leaves its hits counter and the `hasRun` flag as
they were. -/
theorem run_sampled_out (background : Ctx) (TestMode : Bool)
    (r : experimentRunner Ctx Val Err Pan) (ctx : Option Ctx) (c : behaviour Ctx Val Err Pan)
    (hd : r.disabled = false) (hf : r.force = false) (hs : r.shouldRun = false)
    (hreg : r.behaviours.lookup controlKey = some c) (hname : c.name = controlKey) :
    (∃ ob, (r.Run background TestMode ctx).obs controlKey = some ob) ∧
    (∀ n, n ≠ controlKey → (r.Run background TestMode ctx).obs n = none) ∧
    (r.Run background TestMode ctx).runner.experiment = r.experiment.run ∧
    (r.Run background TestMode ctx).runner.experiment.runs = r.experiment.runs + 1 ∧
    (r.Run background TestMode ctx).runner.experiment.hits = r.experiment.hits ∧
    (r.Run background TestMode ctx).runner.hasRun = r.hasRun := by
  obtain ⟨ob, _, _, hcol⟩ := collect_controlOnly r (r.runContext background ctx) TestMode c hreg
  have hobs : (r.Run background TestMode ctx).obs =
      fun n => if n = c.name then some ob else none := by
    rw [Run_obs, select_sampled_out r hd hf hs]; exact hcol
  refine ⟨⟨ob, ?_⟩, ?_, ?_, ?_, ?_, ?_⟩
  · rw [hobs]; exact if_pos hname.symm
  · intro n hn
    rw [hobs]
    exact if_neg (fun h => hn (h.trans hname))
  · rw [Run_runner, select_sampled_out r hd hf hs]
  · rw [Run_runner, select_sampled_out r hd hf hs]; rfl
  · rw [Run_runner, select_sampled_out r hd hf hs]; rfl
  · rw [Run_runner, select_sampled_out r hd hf hs]

theorem run_sampled_out_witness :
    (sampleRunner false false false 2 2 50).disabled = false ∧
    (sampleRunner false false false 2 2 50).force = false ∧
    (sampleRunner false false false 2 2 50).shouldRun = false ∧
    (sampleRunner false false false 2 2 50).behaviours.lookup controlKey = some sampleControl ∧
    sampleControl.name = controlKey ∧
    (∃ ob, ((sampleRunner false false false 2 2 50).Run 0 false none).obs controlKey =
      some ob) ∧
    (∀ n, n ≠ controlKey →
      ((sampleRunner false false false 2 2 50).Run 0 false none).obs n = none) ∧
    ((sampleRunner false false false 2 2 50).Run 0 false none).runner.experiment =
      (sampleRunner false false false 2 2 50).experiment.run ∧
    ((sampleRunner false false false 2 2 50).Run 0 false none).runner.experiment.runs =
      (sampleRunner false false false 2 2 50).experiment.runs + 1 ∧
    ((sampleRunner false false false 2 2 50).Run 0 false none).runner.experiment.hits =
      (sampleRunner false false false 2 2 50).experiment.hits ∧
    ((sampleRunner false false false 2 2 50).Run 0 false none).runner.hasRun =
      (sampleRunner false false false 2 2 50).hasRun :=
  ⟨rfl, rfl, by decide, rfl, rfl,
    run_sampled_out 0 false (sampleRunner false false false 2 2 50) none sampleControl
      rfl rfl (by decide) rfl rfl⟩

/-! ## Panics -/

/-- Isolation while the flag that `Run` hands to `observe` is off, whatever the
runner's own `testMode` is: in every call that selects the candidates, a
candidate whose function panics has its Observation present with the panic
value in `Panic` and `Value` and `Error` left nil; the entry under every other
name is the one the call assembles when that candidate runs any other function
instead; the panics that escape are the same as with any other function for
that candidate, and none escapes when the control returns normally. The flag
is a parameter of `Run` of its own: with it on, the panic of a candidate
escapes, also from a runner whose `testMode` is false. -/
theorem candidate_panic_is_isolated (background : Ctx)
    (r : experimentRunner Ctx Val Err Pan) (ctx : Option Ctx)
    (k : String) (b : behaviour Ctx Val Err Pan) (p : Pan)
    (hkeys : r.WellKeyed) (hmem : (k, b) ∈ r.behaviours) (hcand : k ≠ controlKey)
    (hd : r.disabled = false) (hsel : r.force = true ∨ r.shouldRun = true)
    (hpanic : b.fnc (r.runContext background ctx) = Outcome.panics p) :
    (r.Run background false ctx).obs k =
      some { Name := k, Value := none, Error := none, Panic := some p } ∧
    (∀ n b', (n, b') ∈ r.behaviours →
      ∃ ob, (r.Run background false ctx).obs n = some ob ∧
        (r.observe (r.runContext background ctx) (some b') false).sent = some ob) ∧
    (∀ (g : Ctx → Outcome Val Err Pan) (n : String), n ≠ k →
      (r.Run background false ctx).obs n = ((r.withFnc k g).Run background false ctx).obs n) ∧
    (∀ g : Ctx → Outcome Val Err Pan,
      (r.Run background false ctx).escaped = ((r.withFnc k g).Run background false ctx).escaped) ∧
    (∀ (c : behaviour Ctx Val Err Pan) (v : Option Val) (e : Option Err),
      r.behaviours.lookup controlKey = some c →
      c.fnc (r.runContext background ctx) = Outcome.returns v e →
      (r.Run background false ctx).escaped = []) := by
  have hname : b.name = k := hkeys.2 (k, b) hmem
  have hselr := select_candidates r hd hsel
  have hselg : ∀ g, (r.withFnc k g).select.2 = (r.withFnc k g).allBehaviours :=
    fun g => select_candidates (r.withFnc k g) hd hsel
  refine ⟨?_, ?_, ?_, ?_, ?_⟩
  · rw [Run_obs, hselr, collect_allBehaviours r _ false hkeys k b hmem,
      observe_panics_recovered r _ b p hpanic (by rw [hname]; exact hcand), hname]
  · intro n b' hm'
    obtain ⟨ob, hsent, _⟩ := observe_sends r (r.runContext background ctx) b' false
    refine ⟨ob, ?_, hsent⟩
    rw [Run_obs, hselr, collect_allBehaviours r _ false hkeys n b' hm', hsent]
  · intro g n hn
    rw [Run_obs, Run_obs, hselr, hselg g, withFnc_runContext]
    by_cases hkey : ∃ kb ∈ r.behaviours, kb.1 = n
    · obtain ⟨⟨n', b'⟩, hm', rfl⟩ := hkey
      rw [collect_allBehaviours r _ false hkeys n' b' hm',
        collect_allBehaviours (r.withFnc k g) _ false (withFnc_wellKeyed r k g hkeys) n' b'
          (withFnc_mem_of_ne r k g n' b' hm' hn)]
      rfl
    · have hno : ∀ kb ∈ r.behaviours, kb.1 ≠ n := fun kb hkb h => hkey ⟨kb, hkb, h⟩
      rw [collect_allBehaviours_none r _ false hkeys n hno,
        collect_allBehaviours_none (r.withFnc k g) _ false (withFnc_wellKeyed r k g hkeys) n]
      intro kb hkb h
      have hin : kb.1 ∈ (r.withFnc k g).behaviours.map Prod.fst := List.mem_map_of_mem _ hkb
      rw [withFnc_keys, List.mem_map] at hin
      obtain ⟨kb0, hm0, h0⟩ := hin
      exact hno kb0 hm0 (h0.trans h)
  · intro g
    rw [Run_escaped, Run_escaped, hselr, hselg g, withFnc_runContext, escaped_allBehaviours,
      escaped_allBehaviours]
    simp only [experimentRunner.withFnc, List.filterMap_map]
    apply filterMap_congr_mem
    intro kb hkb
    simp only [Function.comp]
    by_cases hk : kb.1 = k
    · rw [if_pos hk]
      have hn1 : kb.2.name ≠ controlKey := by rw [hkeys.2 kb hkb, hk]; exact hcand
      rw [observe_escaped_candidate r _ kb.2 hn1]
      exact (observe_escaped_candidate _ _ { name := kb.2.name, fnc := g } hn1).symm
    · rw [if_neg hk]; rfl
  · intro c v e hreg hret
    rw [Run_escaped, hselr, escaped_allBehaviours, List.filterMap_eq_nil_iff]
    intro kb hkb
    by_cases hn : kb.2.name = controlKey
    · have hc : kb = (controlKey, c) :=
        hkeys.eq_of_key_eq hkb (mem_of_lookup _ _ _ hreg) ((hkeys.2 kb hkb).symm.trans hn)
      subst hc
      rw [observe_returns r _ c false v e hret]
    · exact observe_escaped_candidate r _ kb.2 hn

theorem candidate_panic_is_isolated_witness :
    (sampleRunner false false false 1 2 50).WellKeyed ∧
    ("candidate", panickingCandidate) ∈ (sampleRunner false false false 1 2 50).behaviours ∧
    "candidate" ≠ controlKey ∧
    (sampleRunner false false false 1 2 50).disabled = false ∧
    ((sampleRunner false false false 1 2 50).force = true ∨
      (sampleRunner false false false 1 2 50).shouldRun = true) ∧
    panickingCandidate.fnc ((sampleRunner false false false 1 2 50).runContext 0 none) =
      Outcome.panics "boom" ∧
    (((sampleRunner false false false 1 2 50).Run 0 false none).obs "candidate" =
      some { Name := "candidate", Value := none, Error := none, Panic := some "boom" } ∧
    (∀ n b', (n, b') ∈ (sampleRunner false false false 1 2 50).behaviours →
      ∃ ob, ((sampleRunner false false false 1 2 50).Run 0 false none).obs n = some ob ∧
        ((sampleRunner false false false 1 2 50).observe
          ((sampleRunner false false false 1 2 50).runContext 0 none) (some b') false).sent =
          some ob) ∧
    (∀ (g : Nat → Outcome Nat String String) (n : String), n ≠ "candidate" →
      ((sampleRunner false false false 1 2 50).Run 0 false none).obs n =
        (((sampleRunner false false false 1 2 50).withFnc "candidate" g).Run 0 false none).obs
          n) ∧
    (∀ g : Nat → Outcome Nat String String,
      ((sampleRunner false false false 1 2 50).Run 0 false none).escaped =
        (((sampleRunner false false false 1 2 50).withFnc "candidate" g).Run 0 false
          none).escaped) ∧
    (∀ (c : behaviour Nat Nat String String) (v : Option Nat) (e : Option String),
      (sampleRunner false false false 1 2 50).behaviours.lookup controlKey = some c →
      c.fnc ((sampleRunner false false false 1 2 50).runContext 0 none) =
        Outcome.returns v e →
      ((sampleRunner false false false 1 2 50).Run 0 false none).escaped = [])) :=
  ⟨sampleRunner_wellKeyed _ _ _ _ _ _, by simp [sampleRunner], by decide, rfl,
    Or.inr (by decide), rfl,
    candidate_panic_is_isolated 0 (sampleRunner false false false 1 2 50) none "candidate"
      panickingCandidate "boom" (sampleRunner_wellKeyed _ _ _ _ _ _) (by simp [sampleRunner])
      (by decide) rfl (Or.inr (by decide)) rfl⟩

/-- C8: a runner outside test mode (its `testMode` is false), neither disabled
nor forced, samples the call in (a hit rate of 50 against a percentage of 50);
its candidate panics with "boom" and its control returns normally. When the
flag that `Run` hands to `observe` is on, the panic of the candidate is not
recovered: the Observation of the candidate has `Panic` left nil, and the panic
escapes from `Run`, which so does not return normally. The same runner has the
panic captured in `Panic`, and nothing escaping, only when that flag is off: a
candidate's panic is isolated by that flag and not by the runner being outside
test mode. -/
theorem candidate_panic_escapes_outside_testMode :
    (sampleRunner false false false 1 2 50).testMode = false ∧
    (sampleRunner false false false 1 2 50).disabled = false ∧
    (sampleRunner false false false 1 2 50).force = false ∧
    (sampleRunner false false false 1 2 50).shouldRun = true ∧
    (sampleRunner false false false 1 2 50).behaviours.lookup "candidate" =
      some panickingCandidate ∧
    panickingCandidate.fnc ((sampleRunner false false false 1 2 50).runContext 0 none) =
      Outcome.panics "boom" ∧
    (sampleRunner false false false 1 2 50).behaviours.lookup controlKey =
      some sampleControl ∧
    sampleControl.fnc ((sampleRunner false false false 1 2 50).runContext 0 none) =
      Outcome.returns (some 7) none ∧
    ((sampleRunner false false false 1 2 50).Run 0 true none).obs "candidate" =
      some { Name := "candidate", Value := none, Error := none, Panic := none } ∧
    ((sampleRunner false false false 1 2 50).Run 0 true none).escaped =
      [Fault.raised "boom"] ∧
    ((sampleRunner false false false 1 2 50).Run 0 false none).obs "candidate" =
      some { Name := "candidate", Value := none, Error := none, Panic := some "boom" } ∧
    ((sampleRunner false false false 1 2 50).Run 0 false none).escaped = [] := by
  refine ⟨rfl, rfl, rfl, by decide, rfl, rfl, rfl, rfl, by decide, by decide, by decide,
    by decide⟩

/-- C9: in every mode of `Run`, with the test-mode flag on or off, a panic of
the control's function is not recovered: `observe` on the control ends in that
panic, the panic is among those that escape from `Run`, and the `Panic` field
of the control's Observation stays nil. -/
theorem control_panic_propagates (background : Ctx) (TestMode : Bool)
    (r : experimentRunner Ctx Val Err Pan) (ctx : Option Ctx)
    (c : behaviour Ctx Val Err Pan) (p : Pan)
    (hkeys : r.WellKeyed) (hreg : r.behaviours.lookup controlKey = some c)
    (hpanic : c.fnc (r.runContext background ctx) = Outcome.panics p) :
    (r.observe (r.runContext background ctx) (some c) TestMode).escaped =
      some (Fault.raised p) ∧
    Fault.raised p ∈ (r.Run background TestMode ctx).escaped ∧
    (r.Run background TestMode ctx).obs controlKey =
      some { Name := controlKey, Value := none, Error := none, Panic := none } := by
  have hmem := mem_of_lookup _ _ _ hreg
  have hname : c.name = controlKey := hkeys.2 _ hmem
  have hobs := observe_panics_escapes r (r.runContext background ctx) c TestMode p hpanic
    (Or.inl hname)
  refine ⟨by rw [hobs], ?_, ?_⟩
  · rw [Run_escaped, List.mem_filterMap]
    refine ⟨r.observe (r.runContext background ctx) (some c) TestMode, ?_, by rw [hobs]⟩
    rcases select_cases r with hsel | hsel
    · rw [hsel]
      simp [deliveries, experimentRunner.controlOnly, hreg]
    · rw [hsel]
      simp only [deliveries, experimentRunner.allBehaviours, List.map_map, List.mem_map]
      exact ⟨(controlKey, c), hmem, rfl⟩
  · rw [Run_obs]
    rcases select_cases r with hsel | hsel
    · rw [hsel]
      obtain ⟨ob, hs, _, hcol⟩ :=
        collect_controlOnly r (r.runContext background ctx) TestMode c hreg
      rw [hobs] at hs
      rw [hcol]
      refine (if_pos hname.symm).trans ?_
      rw [← hname]
      exact hs.symm
    · rw [hsel, collect_allBehaviours r _ TestMode hkeys controlKey c hmem, hobs, hname]

theorem control_panic_propagates_witness :
    (faultyRunner true false false).WellKeyed ∧
    (faultyRunner true false false).behaviours.lookup controlKey = some panickingControl ∧
    panickingControl.fnc ((faultyRunner true false false).runContext 0 none) =
      Outcome.panics "control down" ∧
    (((faultyRunner true false false).observe ((faultyRunner true false false).runContext 0
        none) (some panickingControl) false).escaped = some (Fault.raised "control down") ∧
    Fault.raised "control down" ∈ ((faultyRunner true false false).Run 0 false none).escaped ∧
    ((faultyRunner true false false).Run 0 false none).obs controlKey =
      some { Name := controlKey, Value := none, Error := none, Panic := none }) :=
  ⟨faultyRunner_wellKeyed _ _ _, rfl, rfl,
    control_panic_propagates 0 false (faultyRunner true false false) none panickingControl
      "control down" (faultyRunner_wellKeyed _ _ _) rfl rfl⟩

/-- C10: the isolation of panics follows the flag that `Run` hands to `observe`,
not the test mode the runner is configured with. A runner configured in test
mode (its `shouldRun` is true at a hit rate of 100 against a percentage of 0)
still has the panic of a candidate captured in `Panic`, and nothing escapes,
when that flag is off; a runner not configured in test mode lets the panic of
the candidate escape, uncaptured, when that flag is on. -/
theorem isolation_ignores_configured_testMode :
    ((sampleRunner true false false 2 2 0).testMode = true ∧
      (sampleRunner true false false 2 2 0).shouldRun = true ∧
      ((sampleRunner true false false 2 2 0).Run 0 false none).obs "candidate" =
        some { Name := "candidate", Value := none, Error := none, Panic := some "boom" } ∧
      ((sampleRunner true false false 2 2 0).Run 0 false none).escaped = []) ∧
    ((sampleRunner false false true 2 2 0).testMode = false ∧
      ((sampleRunner false false true 2 2 0).Run 0 true none).obs "candidate" =
        some { Name := "candidate", Value := none, Error := none, Panic := none } ∧
      ((sampleRunner false false true 2 2 0).Run 0 true none).escaped =
        [Fault.raised "boom"]) := by
  refine ⟨⟨rfl, by decide, by decide, by decide⟩, ⟨rfl, by decide, by decide⟩⟩

/-! ## Test mode, returned errors, and the shape of an Observation -/

/-- C11: when the runner is in test mode `shouldRun` returns true whatever the
hits, the runs and the percentage are, so a call of `Run` that is neither
disabled nor forced selects the whole behaviour map: it samples in, and every
registered behaviour has an Observation under its name. The last conjunct is a
runner in test mode whose hit rate of 100 is above its percentage of 0. -/
theorem shouldRun_in_testMode (background : Ctx) (TestMode : Bool)
    (r : experimentRunner Ctx Val Err Pan) (ctx : Option Ctx) (htm : r.testMode = true) :
    r.shouldRun = true ∧
    (r.disabled = false → r.force = false →
      r.select.2 = r.allBehaviours ∧
      (r.Run background TestMode ctx).runner.HasRun = true ∧
      ∀ kb ∈ r.behaviours, ∃ ob,
        (r.Run background TestMode ctx).obs kb.2.name = some ob ∧ ob.Name = kb.2.name) ∧
    (F32.le (F32.mul (F32.div (F32.ofNat 2) (F32.ofNat 2)) (F32.ofNat 100)) (F32.ofNat 0) = false ∧
      (sampleRunner true false false 2 2 0).shouldRun = true) := by
  have hs : r.shouldRun = true := by simp [experimentRunner.shouldRun, htm]
  refine ⟨hs, ?_, by decide, by decide⟩
  intro hd hf
  have hsel := select_sampled_in r hd hf hs
  refine ⟨by rw [hsel], by rw [Run_runner, hsel]; rfl, ?_⟩
  intro kb hkb
  obtain ⟨ob, hsent, hn⟩ := observe_sends r (r.runContext background ctx) kb.2 TestMode
  have hmem : ∃ d ∈ deliveries r (r.runContext background ctx) TestMode r.allBehaviours,
      d.sent = some ob := by
    refine ⟨r.observe (r.runContext background ctx) (some kb.2) TestMode, ?_, hsent⟩
    simp only [deliveries, experimentRunner.allBehaviours, List.map_map, List.mem_map]
    exact ⟨kb, hkb, rfl⟩
  obtain ⟨ob', hob', hn'⟩ := collect_of_sender _ ob hmem
  rw [hn] at hob' hn'
  refine ⟨ob', ?_, hn'⟩
  rw [Run_obs, hsel]
  exact hob'

theorem shouldRun_in_testMode_witness :
    (sampleRunner true false false 2 2 0).testMode = true ∧
    ((sampleRunner true false false 2 2 0).shouldRun = true ∧
    ((sampleRunner true false false 2 2 0).disabled = false →
      (sampleRunner true false false 2 2 0).force = false →
      (sampleRunner true false false 2 2 0).select.2 =
        (sampleRunner true false false 2 2 0).allBehaviours ∧
      ((sampleRunner true false false 2 2 0).Run 0 false none).runner.HasRun = true ∧
      ∀ kb ∈ (sampleRunner true false false 2 2 0).behaviours, ∃ ob,
        ((sampleRunner true false false 2 2 0).Run 0 false none).obs kb.2.name = some ob ∧
          ob.Name = kb.2.name) ∧
    (F32.le (F32.mul (F32.div (F32.ofNat 2) (F32.ofNat 2)) (F32.ofNat 100)) (F32.ofNat 0) = false ∧
      (sampleRunner true false false 2 2 0).shouldRun = true)) :=
  ⟨rfl, shouldRun_in_testMode 0 false (sampleRunner true false false 2 2 0) none rfl⟩

/-- C12: a behaviour, control or candidate, whose function returns normally with
value `v` and error `e` gets from `observe` the Observation with that value,
that error and no captured panic, and no panic leaves its goroutine, whatever
the test-mode flag is; in the Observations of `Run` the entry of such a
behaviour, when it was selected, is that Observation; and when every
registered behaviour returns normally, with whatever errors, nothing escapes
and `Run` returns normally. -/
theorem returned_error_is_recorded (background : Ctx) (TestMode : Bool)
    (r : experimentRunner Ctx Val Err Pan) (ctx : Option Ctx) (c : behaviour Ctx Val Err Pan)
    (hkeys : r.WellKeyed) (hreg : r.behaviours.lookup controlKey = some c) :
    (∀ (b : behaviour Ctx Val Err Pan) (tm : Bool) (x : Ctx) (v : Option Val) (e : Option Err),
      b.fnc x = Outcome.returns v e →
      r.observe x (some b) tm =
        { sent := some { Name := b.name, Value := v, Error := e, Panic := none },
          escaped := none }) ∧
    (∀ (k : String) (b : behaviour Ctx Val Err Pan) (v : Option Val) (e : Option Err),
      (k, b) ∈ r.behaviours → b.fnc (r.runContext background ctx) = Outcome.returns v e →
      ∀ ob, (r.Run background TestMode ctx).obs k = some ob →
        ob = { Name := k, Value := v, Error := e, Panic := none }) ∧
    ((∀ kb ∈ r.behaviours, ∃ v e,
        kb.2.fnc (r.runContext background ctx) = Outcome.returns v e) →
      (r.Run background TestMode ctx).escaped = []) := by
  refine ⟨fun b tm x v e h => observe_returns r x b tm v e h, ?_, ?_⟩
  · intro k b v e hmem hret ob hob
    have hs := Run_obs_entry background TestMode r ctx hkeys k b hmem ob hob
    rw [observe_returns r _ b TestMode v e hret] at hs
    rw [← Option.some.inj hs, hkeys.2 (k, b) hmem]
  · intro hall
    rw [Run_escaped, List.filterMap_eq_nil_iff]
    intro d hd
    simp only [deliveries, List.mem_map] at hd
    obtain ⟨kb, hkb, rfl⟩ := hd
    rcases select_mem r kb hkb with hnone | ⟨b, hb, hm⟩
    · exfalso
      rcases select_cases r with hsel | hsel
      · rw [hsel] at hkb
        simp only [experimentRunner.controlOnly, List.mem_singleton] at hkb
        rw [hkb, hreg] at hnone
        cases hnone
      · rw [hsel] at hkb
        simp only [experimentRunner.allBehaviours, List.mem_map] at hkb
        obtain ⟨kb0, _, rfl⟩ := hkb
        cases hnone
    · obtain ⟨v, e, hret⟩ := hall (kb.1, b) hm
      rw [hb, observe_returns r _ b TestMode v e hret]

/-- C17: in every Observation that `observe` delivers, a captured panic comes
with nil `Value` and `Error`, so the panic and the returned error are never
both populated, and an Observation named after the control never has a
captured panic; the same holds of every entry of the Observations of `Run`. -/
theorem observation_panic_exclusive (background : Ctx) (TestMode : Bool)
    (r : experimentRunner Ctx Val Err Pan) :
    (∀ (x : Ctx) (beh : Option (behaviour Ctx Val Err Pan)) (tm : Bool)
        (ob : Observation Val Err Pan), (r.observe x beh tm).sent = some ob →
      (ob.Panic ≠ none → ob.Value = none ∧ ob.Error = none) ∧
      (ob.Name = controlKey → ob.Panic = none)) ∧
    (∀ (ctx : Option Ctx) (n : String) (ob : Observation Val Err Pan),
      (r.Run background TestMode ctx).obs n = some ob →
      (ob.Panic ≠ none → ob.Value = none ∧ ob.Error = none) ∧
      (ob.Name = controlKey → ob.Panic = none)) := by
  have key : ∀ (x : Ctx) (beh : Option (behaviour Ctx Val Err Pan)) (tm : Bool)
      (ob : Observation Val Err Pan), (r.observe x beh tm).sent = some ob →
      (ob.Panic ≠ none → ob.Value = none ∧ ob.Error = none) ∧
      (ob.Name = controlKey → ob.Panic = none) := by
    intro x beh tm ob h
    cases beh with
    | none => simp [experimentRunner.observe] at h
    | some b =>
      rcases observe_sent_cases r x b tm ob h with
        ⟨v, e, _, rfl⟩ | ⟨p, _, _, rfl⟩ | ⟨p, _, hn, _, rfl⟩
      · exact ⟨fun hp => absurd rfl hp, fun _ => rfl⟩
      · exact ⟨fun hp => absurd rfl hp, fun _ => rfl⟩
      · exact ⟨fun _ => ⟨rfl, rfl⟩, fun hc => absurd hc hn⟩
  refine ⟨key, ?_⟩
  intro ctx n ob h
  obtain ⟨_, kb, _, hs⟩ := Run_obs_sent background TestMode r ctx n ob h
  exact key _ kb.2 TestMode ob hs

theorem returned_error_is_recorded_witness :
    (steadyRunner false false true).WellKeyed ∧
    (steadyRunner false false true).behaviours.lookup controlKey = some sampleControl ∧
    ((∀ (b : behaviour Nat Nat String String) (tm : Bool) (x : Nat) (v : Option Nat)
        (e : Option String), b.fnc x = Outcome.returns v e →
      (steadyRunner false false true).observe x (some b) tm =
        { sent := some { Name := b.name, Value := v, Error := e, Panic := none },
          escaped := none }) ∧
    (∀ (k : String) (b : behaviour Nat Nat String String) (v : Option Nat) (e : Option String),
      (k, b) ∈ (steadyRunner false false true).behaviours →
      b.fnc ((steadyRunner false false true).runContext 0 none) = Outcome.returns v e →
      ∀ ob, ((steadyRunner false false true).Run 0 true none).obs k = some ob →
        ob = { Name := k, Value := v, Error := e, Panic := none }) ∧
    ((∀ kb ∈ (steadyRunner false false true).behaviours, ∃ v e,
        kb.2.fnc ((steadyRunner false false true).runContext 0 none) = Outcome.returns v e) →
      ((steadyRunner false false true).Run 0 true none).escaped = [])) ∧
    ((steadyRunner false false true).Run 0 true none).obs "other" =
      some { Name := "other", Value := some 8, Error := some "mismatch", Panic := none } ∧
    ((steadyRunner false false true).Run 0 true none).escaped = [] :=
  ⟨steadyRunner_wellKeyed _ _ _, rfl,
    returned_error_is_recorded 0 true (steadyRunner false false true) none sampleControl
      (steadyRunner_wellKeyed _ _ _) rfl, by decide, by decide⟩

/-! ## The Experiment State and the runner along sequences of calls -/

/-- C13: starting from `hits = runs = 0`, after any finite sequence of calls of
`Run`, made through any runners in any mix of the disabled, forced, sampled-in
and sampled-out modes, the hits counter of the Experiment State is at most its
runs counter. -/
theorem hits_le_runs_invariant (background : Ctx)
    (calls : List (Invocation Ctx Val Err Pan)) :
    (runAll background calls { hits := 0, runs := 0 }).hits ≤
      (runAll background calls { hits := 0, runs := 0 }).runs :=
  runAll_keeps_hits_le_runs background calls { hits := 0, runs := 0 } (Nat.le_refl 0)

/-- C19: no sequence of calls of `Run`, `Disable` and `Force` changes the
runner's own `hits`, `runs`, `testMode` and `config`; `shouldRun` is a function
of these fields alone (of the config, only the percentage), and in particular
not of the Experiment State; hence `shouldRun` returns the same after any
sequence of calls as before it, so every sampled call made through one runner
takes the same sampling decision whatever it records on the experiment. -/
theorem shouldRun_is_frozen (background : Ctx) (r : experimentRunner Ctx Val Err Pan)
    (calls : List (Call Ctx)) :
    ((r.performAll background calls).hits = r.hits ∧
      (r.performAll background calls).runs = r.runs ∧
      (r.performAll background calls).testMode = r.testMode ∧
      (r.performAll background calls).config = r.config) ∧
    (∀ r' : experimentRunner Ctx Val Err Pan, r'.hits = r.hits → r'.runs = r.runs →
      r'.testMode = r.testMode → r'.config.Percentage = r.config.Percentage →
      r'.shouldRun = r.shouldRun) ∧
    (∀ e : Experiment,
      ({ r with experiment := e } : experimentRunner Ctx Val Err Pan).shouldRun = r.shouldRun) ∧
    (r.performAll background calls).shouldRun = r.shouldRun := by
  obtain ⟨h1, h2, h3, h4⟩ := performAll_frame background r calls
  refine ⟨⟨h1, h2, h3, h4⟩, fun r' => shouldRun_congr r r', fun _ => rfl, ?_⟩
  exact shouldRun_congr r _ h1 h2 h3 (by rw [h4])

/-! ## The context of the behaviours -/

/-- C14: every behaviour that `Run` executes is observed on the left fold of the
before-filters, in registration order, over the caller's context, or over the
background context when the caller passes nil; `observe` calls the function of
the behaviour on that context and uses nothing else of it; with filters
`[f1, f2, f3]` the context is `f3 (f2 (f1 c))`, a filter appended to the list
is applied last, and without filters the context is the caller's. The sample
runner, with filters add 1 then double and a control that returns its context
plus 5, yields 13 on the context 3 and 7 on nil with background 0. -/
theorem behaviours_receive_filtered_context (background : Ctx) (TestMode : Bool)
    (r : experimentRunner Ctx Val Err Pan) (ctx : Option Ctx) :
    ((r.Run background TestMode ctx).obs =
        collect (r.select.2.map (fun kb =>
          r.observe (r.config.BeforeFilters.foldl (fun c f => f c) (ctx.getD background))
            kb.2 TestMode)) ∧
      (r.Run background TestMode ctx).escaped =
        (r.select.2.map (fun kb =>
          r.observe (r.config.BeforeFilters.foldl (fun c f => f c) (ctx.getD background))
            kb.2 TestMode)).filterMap (fun d => d.escaped)) ∧
    (∀ (x : Ctx) (b b' : behaviour Ctx Val Err Pan) (tm : Bool), b.name = b'.name →
      b.fnc x = b'.fnc x → r.observe x (some b) tm = r.observe x (some b') tm) ∧
    (∀ (f1 f2 f3 : Ctx → Ctx) (c : Ctx),
      ({ r with config := { r.config with BeforeFilters := [f1, f2, f3] } } :
        experimentRunner Ctx Val Err Pan).runContext background (some c) = f3 (f2 (f1 c))) ∧
    (∀ (fs : List (Ctx → Ctx)) (f : Ctx → Ctx),
      ({ r with config := { r.config with BeforeFilters := fs ++ [f] } } :
        experimentRunner Ctx Val Err Pan).runContext background ctx =
      f (({ r with config := { r.config with BeforeFilters := fs } } :
        experimentRunner Ctx Val Err Pan).runContext background ctx)) ∧
    (∀ c : Ctx, ({ r with config := { r.config with BeforeFilters := [] } } :
        experimentRunner Ctx Val Err Pan).runContext background (some c) = c) ∧
    (({ r with config := { r.config with BeforeFilters := [] } } :
        experimentRunner Ctx Val Err Pan).runContext background none = background) ∧
    ((sampleRunner false true false 0 0 10).Run 0 false (some 3)).obs controlKey =
      some { Name := controlKey, Value := some 13, Error := none, Panic := none } ∧
    ((sampleRunner false true false 0 0 10).Run 0 false none).obs controlKey =
      some { Name := controlKey, Value := some 7, Error := none, Panic := none } := by
  have hctx : r.runContext background ctx =
      r.config.BeforeFilters.foldl (fun c f => f c) (ctx.getD background) := by
    cases ctx <;> rfl
  refine ⟨⟨?_, ?_⟩, ?_, fun _ _ _ _ => rfl, ?_, fun _ => rfl, rfl, by decide, by decide⟩
  · rw [Run_obs, hctx]; rfl
  · rw [Run_escaped, hctx]; rfl
  · intro x b b' tm hn hf
    simp only [experimentRunner.observe, runObservation, hn, hf]
  · intro fs f
    simp only [experimentRunner.runContext, List.foldl_append, List.foldl_cons, List.foldl_nil]

/-! ## The flag `hasRun` -/

/-- C16, counterexample: a forced call on a runner whose `HasRun()` is false
runs the candidates and leaves `HasRun()` false; and a disabled call made after
a sampled-in call on the same runner runs only the control and leaves
`HasRun()` true. -/
theorem hasRun_counterexample :
    ((sampleRunner false false true 1 2 50).HasRun = false ∧
      (sampleRunner false false true 1 2 50).force = true ∧
      ((sampleRunner false false true 1 2 50).Run 0 false none).obs "candidate" =
        some { Name := "candidate", Value := none, Error := none, Panic := some "boom" } ∧
      ((sampleRunner false false true 1 2 50).Run 0 false none).obs "other" =
        some { Name := "other", Value := some 8, Error := some "mismatch", Panic := none } ∧
      ((sampleRunner false false true 1 2 50).Run 0 false none).runner.HasRun = false) ∧
    ((sampleRunner false false false 1 2 50).shouldRun = true ∧
      ((sampleRunner false false false 1 2 50).Run 0 false none).runner.HasRun = true ∧
      (((((sampleRunner false false false 1 2 50).Run 0 false none).runner.Disable true).Run
        0 false none).obs "candidate" = none) ∧
      (((((sampleRunner false false false 1 2 50).Run 0 false none).runner.Disable true).Run
        0 false none).obs "other" = none) ∧
      (((((sampleRunner false false false 1 2 50).Run 0 false none).runner.Disable true).Run
        0 false none).runner.HasRun = true)) := by
  refine ⟨⟨rfl, rfl, by decide, by decide, by decide⟩,
    ⟨by decide, by decide, by decide, by decide, by decide⟩⟩

/-- C16, as amended: after a call of `Run` that samples in, `HasRun()` is true;
a call that runs only the control, disabled or sampled out, leaves `HasRun()`
as it was before the call, so it is false after such a call on a runner on
which it was false before. -/
theorem hasRun_after_run (background : Ctx) (TestMode : Bool)
    (r : experimentRunner Ctx Val Err Pan) (ctx : Option Ctx) :
    (r.disabled = false → r.force = false → r.shouldRun = true →
      (r.Run background TestMode ctx).runner.HasRun = true) ∧
    (r.disabled = true ∨ (r.force = false ∧ r.shouldRun = false) →
      (r.Run background TestMode ctx).runner.HasRun = r.HasRun ∧
      (r.HasRun = false → (r.Run background TestMode ctx).runner.HasRun = false)) := by
  refine ⟨?_, ?_⟩
  · intro hd hf hs
    rw [Run_runner, select_sampled_in r hd hf hs]; rfl
  · intro h
    have key : (r.Run background TestMode ctx).runner.HasRun = r.HasRun := by
      rw [Run_runner]
      cases hd : r.disabled with
      | true => rw [select_disabled r hd]
      | false =>
        rcases h with h | ⟨hf, hs⟩
        · rw [hd] at h; cases h
        · rw [select_sampled_out r hd hf hs]; rfl
    exact ⟨key, fun h0 => key.trans h0⟩

/-! ## Options -/

/-- C15: `newOptions` without options yields the percentage 10, enabled true and
test mode false; `Percentage(p)`, `Enabled(b)` and `TestMode()` each change
their own field and no other; an option appended to a list is applied last; a
field that no option of the list changes keeps its default; and the last
option of the list that sets a field decides it, whatever comes before. The
last conjunct is a list in which `Percentage` occurs twice. -/
theorem newOptions_defaults_and_frames (background : Ctx) :
    ((newOptions background ([] : List (OptionFn Ctx Val Err Pan))).percentage = F64.ofInt 10 ∧
      F64.toRat (F64.ofInt 10) = some 10 ∧
      (newOptions background ([] : List (OptionFn Ctx Val Err Pan))).enabled = true ∧
      (newOptions background ([] : List (OptionFn Ctx Val Err Pan))).testMode = false) ∧
    (∀ (o : options Ctx Val Err Pan) (p : Int) (b : Bool),
      Percentage p o = { o with percentage := F64.ofInt p } ∧
      Enabled b o = { o with enabled := b } ∧
      TestMode o = { o with testMode := true }) ∧
    (∀ (ops : List (OptionFn Ctx Val Err Pan)) (o : OptionFn Ctx Val Err Pan),
      newOptions background (ops ++ [o]) = o (newOptions background ops)) ∧
    (∀ ops : List (OptionFn Ctx Val Err Pan),
      ((∀ o ∈ ops, ∀ x, (o x).percentage = x.percentage) →
        (newOptions background ops).percentage = F64.ofInt 10) ∧
      ((∀ o ∈ ops, ∀ x, (o x).enabled = x.enabled) →
        (newOptions background ops).enabled = true) ∧
      ((∀ o ∈ ops, ∀ x, (o x).testMode = x.testMode) →
        (newOptions background ops).testMode = false)) ∧
    (∀ (ops rest : List (OptionFn Ctx Val Err Pan)) (p : Int) (b : Bool),
      ((∀ o ∈ rest, ∀ x, (o x).percentage = x.percentage) →
        (newOptions background (ops ++ Percentage p :: rest)).percentage = F64.ofInt p) ∧
      ((∀ o ∈ rest, ∀ x, (o x).enabled = x.enabled) →
        (newOptions background (ops ++ Enabled b :: rest)).enabled = b) ∧
      ((∀ o ∈ rest, ∀ x, (o x).testMode = x.testMode) →
        (newOptions background (ops ++ TestMode :: rest)).testMode = true)) ∧
    ((newOptions (0 : Nat) ([Percentage 50, Enabled false, Percentage 25, TestMode,
        Enabled true] : List (OptionFn Nat Nat String String))).percentage = F64.ofInt 25 ∧
      (newOptions (0 : Nat) ([Percentage 50, Enabled false, Percentage 25, TestMode,
        Enabled true] : List (OptionFn Nat Nat String String))).enabled = true ∧
      (newOptions (0 : Nat) ([Percentage 50, Enabled false, Percentage 25, TestMode,
        Enabled true] : List (OptionFn Nat Nat String String))).testMode = true) := by
  refine ⟨⟨rfl, F64.ofInt_ten, rfl, rfl⟩, fun _ _ _ => ⟨rfl, rfl, rfl⟩, ?_, ?_, ?_,
    ⟨rfl, rfl, rfl⟩⟩
  · intro ops o
    rw [newOptions_append]; rfl
  · intro ops
    exact ⟨fun h => foldl_options_field (fun x => x.percentage) ops _ h,
      fun h => foldl_options_field (fun x => x.enabled) ops _ h,
      fun h => foldl_options_field (fun x => x.testMode) ops _ h⟩
  · intro ops rest p b
    refine ⟨fun h => ?_, fun h => ?_, fun h => ?_⟩
    · rw [newOptions_append, List.foldl_cons,
        foldl_options_field (fun x => x.percentage) rest _ h]; rfl
    · rw [newOptions_append, List.foldl_cons,
        foldl_options_field (fun x => x.enabled) rest _ h]; rfl
    · rw [newOptions_append, List.foldl_cons,
        foldl_options_field (fun x => x.testMode) rest _ h]; rfl

/-! ## The sampling decision without hits, and the sampling loop -/

/-- C20, counterexample: a runner in test mode with a percentage of 0, one run
and one hit: `runs > 0` and `hits` is not `== 0`, yet `shouldRun` returns true. -/
theorem shouldRun_zero_percentage_counterexample :
    (sampleRunner true false false 1 1 0).testMode = true ∧
    F32.eq (sampleRunner true false false 1 1 0).config.Percentage (F32.ofNat 0) = true ∧
    F32.lt (F32.ofNat 0) (sampleRunner true false false 1 1 0).runs = true ∧
    F32.eq (sampleRunner true false false 1 1 0).hits (F32.ofNat 0) = false ∧
    (sampleRunner true false false 1 1 0).shouldRun = true := by
  refine ⟨rfl, by decide, by decide, by decide, by decide⟩

/-- C20, as amended: whatever the test mode is, `shouldRun` returns true when
`hits == 0`, for every `runs >= 0` and every percentage `>= 0`, the percentage 0
included; and outside test mode, with a percentage that is `== 0` and counts
`hits` and `runs > 0` below `2^24`, `shouldRun` is true exactly when `hits` is
0. The last conjuncts are a percentage of 0 after 7 runs, without a hit and
with one hit. -/
theorem shouldRun_without_hits (r : experimentRunner Ctx Val Err Pan) :
    (F32.eq r.hits (F32.ofNat 0) = true → F32.le (F32.ofNat 0) r.runs = true →
      F32.le (F32.ofNat 0) r.config.Percentage = true → r.shouldRun = true) ∧
    (r.testMode = false → F32.eq r.config.Percentage (F32.ofNat 0) = true →
      ∀ h n : Nat, h < 2 ^ 24 → n < 2 ^ 24 → 0 < n →
        r.hits = F32.ofNat h → r.runs = F32.ofNat n → (r.shouldRun = true ↔ h = 0)) ∧
    ((sampleRunner false false false 0 7 0).shouldRun = true ∧
      (sampleRunner false false false 1 7 0).shouldRun = false) := by
  have part1 : F32.eq r.hits (F32.ofNat 0) = true → F32.le (F32.ofNat 0) r.runs = true →
      F32.le (F32.ofNat 0) r.config.Percentage = true → r.shouldRun = true := by
    intro hh hr hp
    obtain ⟨s, e, hs⟩ := F32.eq_zero_cases r.hits hh
    unfold experimentRunner.shouldRun
    by_cases htm : r.testMode = true
    · rw [if_pos htm]
    · rw [if_neg htm]
      by_cases h0 : F32.eq r.runs (F32.ofNat 0) = true
      · rw [if_pos h0]
      · rw [if_neg h0]
        obtain ⟨s', hrate⟩ := F32.rate_of_zero_hits s e r.runs hr (Bool.eq_false_iff.mpr h0)
        rw [hs, hrate, F32.le_of_zero s' _ hp]
        rfl
  refine ⟨part1, ?_, by decide, by decide⟩
  intro htm hp h n hh24 hn24 hn hhits hruns
  constructor
  · intro hs
    by_contra hne
    have hpos : 0 < h := Nat.pos_of_ne_zero hne
    obtain ⟨m, e, hrate, hm⟩ := F32.rate_pos h n hpos hn hh24 hn24
    obtain ⟨sp, ep, hpz⟩ := F32.eq_zero_cases _ hp
    have hr0 := F32.ofNat_ne_zero n hn hn24
    simp only [experimentRunner.shouldRun, htm, hruns, hr0, hhits, hrate, hpz,
      F32.le_fin_zero m e ep sp hm, Bool.false_eq_true, if_false] at hs
  · intro h0
    subst h0
    apply part1
    · rw [hhits]; rfl
    · rw [hruns]
      obtain ⟨m, e, hof, _⟩ := F32.ofNat_exact n hn24
      rw [hof, F32.ofNat_zero]
      simp only [F32.le, F32.scaled_zero, decide_eq_true_eq, F32.scaled, Bool.false_eq_true,
        if_false]
      exact Int.ofNat_le.mpr (by rw [Nat.zero_mul]; exact Nat.zero_le _)
    · obtain ⟨sp, ep, hpz⟩ := F32.eq_zero_cases _ hp
      rw [hpz, F32.ofNat_zero]
      simp only [F32.le, F32.scaled_zero, decide_eq_true_eq, le_refl]

/-- C18, counterexample: with the percentage 71, a sampled call made on the
counters `hits = 104490`, `runs = 147168` decides, with the run recorded, on a
hit rate that is above 71 (`100 * 104490 > 71 * 147169`), yet `shouldRun`
returns true in `float32`, the call samples in, and after it
`hits * 100 > p * runs + 100`. -/
theorem sampling_loop_counterexample :
    (71 ≤ 100) ∧ (104490 ≤ 147168) ∧
    (71 * (Experiment.run { hits := 104490, runs := 147168 }).runs <
      100 * (Experiment.mk 104490 147168).hits) ∧
    (sampleRunner false false false 104490 147169 71).testMode = false ∧
    (sampleRunner false false false 104490 147169 71).disabled = false ∧
    (sampleRunner false false false 104490 147169 71).force = false ∧
    (sampleRunner false false false 104490 147169 71).shouldRun = true ∧
    sampledCall 71 { hits := 104490, runs := 147168 } = { hits := 104491, runs := 147169 } ∧
    (71 * (sampledCall 71 { hits := 104490, runs := 147168 }).runs + 100 <
      100 * (sampledCall 71 { hits := 104490, runs := 147168 }).hits) := by
  have hs : (sampleRunner false false false 104490 147169 71).shouldRun = true := by decide
  have hc : sampledCall 71 { hits := 104490, runs := 147168 } =
      { hits := 104491, runs := 147169 } := by
    rw [sampledCall_eq, if_pos hs]; rfl
  refine ⟨by decide, by decide, by decide, rfl, rfl, rfl, hs, hc, ?_⟩
  rw [hc]
  decide

/-- C18, as amended: starting from `hits = runs = 0`, with sampled calls that
record the run and then decide on the cumulative counters, as long as
`runs < 2^24` and `p * runs < 2^23` the counters satisfy, after every call,
`runs` = number of calls, `hits <= runs` and `hits * 100 <= p * runs + 100`; in
that range a call made while the hit rate is above `p` samples out; and for
every `p <= 100` the range holds the first 83886 calls. -/
theorem sampling_loop_bound :
    (∀ p n : Nat, n < 2 ^ 24 → p * n < 2 ^ 23 →
      (sampledLoop p n).runs = n ∧ (sampledLoop p n).hits ≤ n ∧
        100 * (sampledLoop p n).hits ≤ p * n + 100) ∧
    (∀ (p : Nat) (e : Experiment), e.hits ≤ e.runs → e.runs + 1 < 2 ^ 24 →
      p * (e.runs + 1) < 2 ^ 23 → p * (e.runs + 1) < 100 * e.hits →
      (sampleRunner false false false e.hits (e.runs + 1) p).shouldRun = false ∧
        sampledCall p e = e.run) ∧
    (∀ p n : Nat, p ≤ 100 → n ≤ 83886 →
      (sampledLoop p n).runs = n ∧ 100 * (sampledLoop p n).hits ≤ p * n + 100) := by
  refine ⟨fun p n h24 h23 => sampledLoop_bound p n h24 h23, ?_, ?_⟩
  · intro p e hle h24 h23 habove
    have hf := F32.rate_above e.hits (e.runs + 1) p (Nat.succ_pos _) (by omega) h24 h23 habove
    have hs : (sampleRunner false false false e.hits (e.runs + 1) p).shouldRun = false := by
      rw [sampleRunner_shouldRun _ _ _ (Nat.succ_pos _) h24, hf]
    refine ⟨hs, ?_⟩
    rw [sampledCall_eq, if_neg (by rw [hs]; exact Bool.false_ne_true)]
  · intro p n hp hn
    have h1 : p * n ≤ 100 * 83886 := Nat.mul_le_mul hp hn
    obtain ⟨a, _, c⟩ := sampledLoop_bound p n (by omega) (by omega)
    exact ⟨a, c⟩

end Properties

end experiment
